import Mathlib

/-!
Verification of the pipspeak core: the barcode dictionary with
single-mismatch disambiguation (`src/barcodes.rs`), the bounded
sliding-window matcher, and the four-stage matching pipeline
(`src/config.rs`, `src/main.rs`).

Byte strings (`Vec<u8>`, `&[u8]`) are modelled as `List Nat`; the
`hashbrown::HashMap`s are modelled as association lists whose lookup
returns the first binding (inserts prepend, `entry(..).or_insert(..)`
prepends only when the key is absent — observationally equal to the hash
map).  Rust panics (`unwrap`, slice-range violations, `slice::windows`
with size 0, `expect`) are modelled with `Except Unit`.
-/

namespace Pipspeak

/-- A byte string (`Vec<u8>` / `&[u8]`). -/
abbrev Seq := List Nat

/-- `HashMap<Vec<u8>, usize>` as an association list. -/
abbrev SeqMap := List (Seq × Nat)

/-- `HashMap<usize, Vec<u8>>` as an association list. -/
abbrev IdxMap := List (Nat × Seq)

/-- Lookup of the first binding of a key (`HashMap::get`). -/
def lookupSeq (m : SeqMap) (k : Seq) : Option Nat :=
  match m with
  | [] => none
  | (k', v) :: rest => if k' = k then some v else lookupSeq rest k

/-- Lookup of the first binding of an index key (`HashMap::get`). -/
def lookupIdx (m : IdxMap) (k : Nat) : Option Seq :=
  match m with
  | [] => none
  | (k', v) :: rest => if k' = k then some v else lookupIdx rest k

/-- `map.entry(k).or_insert(v)`: insert only when the key is absent. -/
def orInsertSeq (m : SeqMap) (k : Seq) (v : Nat) : SeqMap :=
  if (lookupSeq m k).isSome then m else (k, v) :: m

/-- `index.entry(k).or_insert(v)`: insert only when the key is absent. -/
def orInsertIdx (m : IdxMap) (k : Nat) (v : Seq) : IdxMap :=
  if (lookupIdx m k).isSome then m else (k, v) :: m

/-- `HashMap::insert` (overwriting): the new binding shadows older ones. -/
def insertSeq (m : SeqMap) (k : Seq) (v : Nat) : SeqMap :=
  (k, v) :: m

/-- ASCII whitespace, as recognised by `str::trim` on the byte strings
at hand (space and the control characters U+0009..U+000D). -/
def isWhitespace (b : Nat) : Bool :=
  b == 32 || (9 ≤ b && b ≤ 13)

/-- `line.trim()` on a byte string. -/
def trimBytes (s : Seq) : Seq :=
  ((s.dropWhile isWhitespace).reverse.dropWhile isWhitespace).reverse

/-- `Barcodes::read_sequence`: trim the line and append the spacer when
one is configured. -/
def read_sequence (line : Seq) (spacer : Option Seq) : Seq :=
  let barcode := trimBytes line
  match spacer with
  | some sp => barcode ++ sp
  | none => barcode

/-- The 4-letter nucleotide alphabet `A`, `C`, `G`, `T` (ASCII). -/
def alphabet : List Nat := [65, 67, 71, 84]

/-- Modelled from the spec: the external `disambiseq` library's
single-substitution enumeration — for a sequence, every result of
substituting one position by a different letter of the 4-letter
nucleotide alphabet. -/
def mutations (s : Seq) : List Seq :=
  (List.range s.length).flatMap (fun i =>
    (alphabet.filter (fun c => c ≠ s.getD i 0)).map (fun c => s.set i c))

/-- The number of parent sequences a candidate variant arises from. -/
def countParents (parents : List Seq) (child : Seq) : Nat :=
  (parents.filter (fun p => decide (child ∈ mutations p))).length

/-- Modelled from the spec: `Disambibyte::unambiguous()` — the
(child, parent) pairs where the child arises from exactly one parent by
a single substitution and is not itself a parent sequence. -/
def unambiguousPairs (parents : List Seq) : List (Seq × Seq) :=
  (parents.flatMap (fun p => (mutations p).map (fun c => (c, p)))).filter
    (fun cp => decide (countParents parents cp.1 = 1) && !(decide (cp.1 ∈ parents)))

/-- The `Barcodes` struct of `src/barcodes.rs`.  The `spacer_len` field
is modelled from the spec: the spacer-stripping `get_barcode` called
from `Config::build_barcode` needs the length of the appended spacer. -/
structure Barcodes where
  map : SeqMap
  index : IdxMap
  len : Nat
  spacer_len : Nat
  deriving DecidableEq

/-- The per-line loop of `Barcodes::parse_buffer`: for each (idx, line),
insert the processed barcode into `map` (keeping the first index) and
into `index` (the key `idx` is always fresh). -/
def parseLoop (spacer : Option Seq) :
    List Seq → Nat → SeqMap → IdxMap → SeqMap × IdxMap
  | [], _, m, ix => (m, ix)
  | line :: rest, idx, m, ix =>
      let barcode := read_sequence line spacer
      parseLoop spacer rest (idx + 1) (orInsertSeq m barcode idx) (orInsertIdx ix idx barcode)

/-- The fuzzy extension of `Barcodes::parse_buffer`: insert every
unambiguous single-substitution child, bound to its parent's index
(`map.get(parent).unwrap()`; the parent is always a key, so the
`getD 0` default is never taken). -/
def fuzzyExtend (m : SeqMap) : SeqMap :=
  (unambiguousPairs (m.map (·.1))).foldl
    (fun acc cp => insertSeq acc cp.1 ((lookupSeq acc cp.2).getD 0)) m

/-- `Barcodes::parse_buffer`: build the maps, extend with unambiguous
variants unless `exact`, and fail (`anyhow::bail!`) unless the set of
distinct processed-line lengths (the `sizes` hash set) is a singleton. -/
def parse_buffer (lines : List Seq) (spacer : Option Seq) (exact : Bool) :
    Option Barcodes :=
  let maps := parseLoop spacer lines 0 [] []
  let map := if exact then maps.1 else fuzzyExtend maps.1
  let sizes := ((lines.map (fun l => read_sequence l spacer)).map (·.length)).dedup
  match sizes with
  | [n] => some { map := map, index := maps.2, len := n,
                  spacer_len := (spacer.map (·.length)).getD 0 }
  | _ => none

/-- `&s[a..b]` as a pure slice (bounds are checked by the callers). -/
def sliceList (s : Seq) (a b : Nat) : Seq := (s.take b).drop a

/-- `sequence.windows(len).position(|w| map.contains_key(w))` for
`1 ≤ len ≤ s.length`: the first of the `s.length - len + 1` window
positions whose window is a key. -/
def windowPos (m : SeqMap) (len : Nat) (s : Seq) : Option Nat :=
  (List.range (s.length - len + 1)).find?
    (fun p => (lookupSeq m (sliceList s p (p + len))).isSome)

/-- `Barcodes::match_sequence`.  A sequence shorter than the key length
gives `none`; with key length 0 the surviving `windows(0)` call panics
(`Except.error`); otherwise the first matching window position `p`
yields `(p + len, index)`. -/
def Barcodes.match_sequence (bc : Barcodes) (s : Seq) :
    Except Unit (Option (Nat × Nat)) :=
  if s.length < bc.len then .ok none
  else if bc.len = 0 then .error ()
  else
    .ok ((windowPos bc.map bc.len s).map
      (fun p => (p + bc.len, (lookupSeq bc.map (sliceList s p (p + bc.len))).getD 0)))

/-- `Barcodes::match_subsequence`: out-of-range or inverted bounds give
`none`; otherwise match on the slice `s[start..stop]`. -/
def Barcodes.match_subsequence (bc : Barcodes) (s : Seq) (start stop : Nat) :
    Except Unit (Option (Nat × Nat)) :=
  if start > s.length ∨ stop > s.length ∨ start > stop then .ok none
  else bc.match_sequence (sliceList s start stop)

/-- `Barcodes::get_barcode` as in `src/barcodes.rs` (full stored
sequence, spacer included). -/
def Barcodes.get_barcode (bc : Barcodes) (idx : Nat) : Option Seq :=
  lookupIdx bc.index idx

/-- Modelled from the spec: `get_by_index(dictionary, index,
include_spacer)` — the two-argument `get_barcode` called from
`Config::build_barcode` is absent from `src/`; it returns the canonical
sequence with the spacer suffix kept or stripped. -/
def Barcodes.get_barcode_spacer (bc : Barcodes) (idx : Nat) (include_spacer : Bool) :
    Option Seq :=
  (lookupIdx bc.index idx).map
    (fun b => if include_spacer then b else b.take (b.length - bc.spacer_len))

/-- `Barcodes::get_id`. -/
def Barcodes.get_id (bc : Barcodes) (s : Seq) : Option Nat :=
  lookupSeq bc.map s

/-- The `Config` struct of `src/config.rs`: the four loaded barcode
sets and the spacer-inclusion (`linkers`) flag. -/
structure Config where
  bc1 : Barcodes
  bc2 : Barcodes
  bc3 : Barcodes
  bc4 : Barcodes
  linkers : Bool
  deriving DecidableEq

/-- `Config::from_yaml` with the file loading already done: sets 1–3
are parsed with their spacers, set 4 without one. -/
def Config.from_sets (l1 l2 l3 l4 : List Seq) (s1 s2 s3 : Seq)
    (exact linkers : Bool) : Option Config :=
  match parse_buffer l1 (some s1) exact, parse_buffer l2 (some s2) exact,
        parse_buffer l3 (some s3) exact, parse_buffer l4 none exact with
  | some b1, some b2, some b3, some b4 =>
      some { bc1 := b1, bc2 := b2, bc3 := b3, bc4 := b4, linkers := linkers }
  | _, _, _, _ => none

/-- The set selected by `Config::match_subsequence`; an invalid set
index panics in the source, modelled by `none`. -/
def Config.getSet (cfg : Config) (set_idx : Nat) : Option Barcodes :=
  match set_idx with
  | 0 => some cfg.bc1
  | 1 => some cfg.bc2
  | 2 => some cfg.bc3
  | 3 => some cfg.bc4
  | _ => none

/-- `Config::match_subsequence`: dispatch to the selected set and
search `[pos, pos + len + off)` when an offset is given, else
`[pos, pos + len)`. -/
def Config.match_subsequence (cfg : Config) (s : Seq) (set_idx pos : Nat)
    (offset : Option Nat) : Except Unit (Option (Nat × Nat)) :=
  match cfg.getSet set_idx with
  | none => .error ()
  | some bc =>
    match offset with
    | some off => bc.match_subsequence s pos (pos + bc.len + off)
    | none => bc.match_subsequence s pos (pos + bc.len)

/-- `Config::build_barcode`: concatenate the four canonical sequences
(spacer kept iff `linkers`); a missing index (`expect`) panics. -/
def Config.build_barcode (cfg : Config) (b1 b2 b3 b4 : Nat) : Except Unit Seq :=
  match cfg.bc1.get_barcode_spacer b1 cfg.linkers,
        cfg.bc2.get_barcode_spacer b2 cfg.linkers,
        cfg.bc3.get_barcode_spacer b3 cfg.linkers,
        cfg.bc4.get_barcode_spacer b4 cfg.linkers with
  | some x1, some x2, some x3, some x4 => .ok (x1 ++ x2 ++ x3 ++ x4)
  | _, _, _, _ => .error ()

/-- A FASTQ record as consumed by `parse_records` (`fxread::Record`
with identifier, sequence and quality string). -/
structure Record where
  id : Seq
  seq : Seq
  qual : Seq
  deriving DecidableEq

/-- Modelled from the spec: the whitelist-bearing `Statistics`
accumulator used by `parse_records` (the version of `log.rs` holding
it is absent from `src/`); total reads, passing reads, the four
per-stage filtered counts and the whitelist set of distinct
reconstructed sequences. -/
structure Statistics where
  total_reads : Nat
  passing_reads : Nat
  num_filtered_1 : Nat
  num_filtered_2 : Nat
  num_filtered_3 : Nat
  num_filtered_4 : Nat
  whitelist : List Seq
  deriving DecidableEq

/-- `Statistics::new()`: all counters zero, empty whitelist. -/
def Statistics.new : Statistics :=
  { total_reads := 0, passing_reads := 0, num_filtered_1 := 0,
    num_filtered_2 := 0, num_filtered_3 := 0, num_filtered_4 := 0,
    whitelist := [] }

/-- `HashSet::insert` on the whitelist: add the sequence unless present. -/
def insertWhitelist (wl : List Seq) (s : Seq) : List Seq :=
  if s ∈ wl then wl else s :: wl

/-- `&s[a..b]` with the bounds check: a reversed or out-of-range Rust
slice panics. -/
def sliceChecked (s : Seq) (a b : Nat) : Except Unit Seq :=
  if a > b ∨ b > s.length then .error () else .ok (sliceList s a b)

/-- `&qual[pos - len..pos]` of the construct-quality slice: `usize`
subtraction underflows (panics) when `len > pos`, otherwise an ordinary
checked slice. -/
def qualSlice (qual : Seq) (len pos : Nat) : Except Unit Seq :=
  if len > pos then .error () else sliceChecked qual (pos - len) pos

/-- One read pair through the iterator chain of `parse_records`
(`src/main.rs`): count it, run the four matching stages
(short-circuiting into the per-stage filtered counters), then extract
the UMI, build the construct and slice the quality string.  Returns the
updated statistics and, for a passing read, the emitted pair: the
reconstructed read-1 record and the unchanged read-2 record. -/
def processPair (cfg : Config) (offset umi_len : Nat) (stats : Statistics)
    (rec1 rec2 : Record) : Except Unit (Statistics × Option (Record × Record)) :=
  let stats := { stats with total_reads := stats.total_reads + 1 }
  match cfg.match_subsequence rec1.seq 0 0 (some offset) with
  | .error e => .error e
  | .ok none => .ok ({ stats with num_filtered_1 := stats.num_filtered_1 + 1 }, none)
  | .ok (some (pos1, b1)) =>
  match cfg.match_subsequence rec1.seq 1 pos1 none with
  | .error e => .error e
  | .ok none => .ok ({ stats with num_filtered_2 := stats.num_filtered_2 + 1 }, none)
  | .ok (some (np2, b2)) =>
  let pos2 := pos1 + np2
  match cfg.match_subsequence rec1.seq 2 pos2 none with
  | .error e => .error e
  | .ok none => .ok ({ stats with num_filtered_3 := stats.num_filtered_3 + 1 }, none)
  | .ok (some (np3, b3)) =>
  let pos3 := pos2 + np3
  match cfg.match_subsequence rec1.seq 3 pos3 none with
  | .error e => .error e
  | .ok none => .ok ({ stats with num_filtered_4 := stats.num_filtered_4 + 1 }, none)
  | .ok (some (np4, b4)) =>
  let stats := { stats with passing_reads := stats.passing_reads + 1 }
  let pos4 := pos3 + np4
  match sliceChecked rec1.seq pos4 (pos4 + umi_len) with
  | .error e => .error e
  | .ok umi =>
  let posU := pos4 + umi_len
  match cfg.build_barcode b1 b2 b3 b4 with
  | .error e => .error e
  | .ok bcseq =>
  let construct_seq := bcseq ++ umi
  match qualSlice rec1.qual construct_seq.length posU with
  | .error e => .error e
  | .ok construct_qual =>
    .ok (stats, some ({ id := rec1.id, seq := construct_seq, qual := construct_qual }, rec2))

/-- The record loop of `parse_records`: process each zipped pair in
turn; a passing pair's construct is inserted into the whitelist and its
two output records are appended. -/
def recordLoop (cfg : Config) (offset umi_len : Nat) :
    List (Record × Record) → Statistics → List (Record × Record) →
    Except Unit (Statistics × List (Record × Record))
  | [], stats, outs => .ok (stats, outs.reverse)
  | (r1, r2) :: rest, stats, outs =>
    match processPair cfg offset umi_len stats r1 r2 with
    | .error e => .error e
    | .ok (stats', none) => recordLoop cfg offset umi_len rest stats' outs
    | .ok (stats', some out) =>
        recordLoop cfg offset umi_len rest
          { stats' with whitelist := insertWhitelist stats'.whitelist out.1.seq }
          (out :: outs)

/-- `parse_records` (without the I/O): zip the two read streams in
lock-step and run the record loop from fresh statistics; the returned
list holds each emitted (read-1 output, read-2 passthrough) pair in
order. -/
def parse_records (cfg : Config) (offset umi_len : Nat)
    (r1s r2s : List Record) : Except Unit (Statistics × List (Record × Record)) :=
  recordLoop cfg offset umi_len (r1s.zip r2s) Statistics.new []

/-- The processed form of the input lines: trimmed, spacer appended. -/
def procs (spacer : Option Seq) (lines : List Seq) : List Seq :=
  lines.map (fun l => read_sequence l spacer)

/-- The position of the first occurrence of `s`. -/
def firstIdx (seqs : List Seq) (s : Seq) : Option Nat :=
  match seqs with
  | [] => none
  | t :: rest => if t = s then some 0 else (firstIdx rest s).map (· + 1)

/-- Left-biased choice on optional indices (`entry(..).or_insert(..)`
keeps the existing binding). -/
def optOr (a b : Option Nat) : Option Nat :=
  match a with
  | some v => some v
  | none => b

theorem lookupSeq_cons (k : Seq) (v : Nat) (m : SeqMap) (s : Seq) :
    lookupSeq ((k, v) :: m) s = if k = s then some v else lookupSeq m s := rfl

theorem lookupIdx_cons (k : Nat) (v : Seq) (m : IdxMap) (n : Nat) :
    lookupIdx ((k, v) :: m) n = if k = n then some v else lookupIdx m n := rfl

theorem lookupSeq_isSome_iff_mem_keys (m : SeqMap) (s : Seq) :
    (lookupSeq m s).isSome ↔ s ∈ m.map (·.1) := by
  induction m with
  | nil => simp [lookupSeq]
  | cons kv rest ih =>
      obtain ⟨k, v⟩ := kv
      by_cases h : k = s
      · subst h
        simp [lookupSeq_cons]
      · have h' : s ≠ k := fun hs => h hs.symm
        simp [lookupSeq_cons, h, ih, h']

theorem lookupSeq_eq_none_iff (m : SeqMap) (s : Seq) :
    lookupSeq m s = none ↔ s ∉ m.map (·.1) := by
  rw [← lookupSeq_isSome_iff_mem_keys, Option.isSome_iff_ne_none]
  tauto

theorem firstIdx_isSome_iff (seqs : List Seq) (s : Seq) :
    (firstIdx seqs s).isSome ↔ s ∈ seqs := by
  induction seqs with
  | nil => simp [firstIdx]
  | cons t rest ih =>
      by_cases h : t = s
      · subst h
        simp [firstIdx]
      · have h' : s ≠ t := fun hs => h hs.symm
        simp [firstIdx, h, ih, h']

theorem firstIdx_eq_none_iff (seqs : List Seq) (s : Seq) :
    firstIdx seqs s = none ↔ s ∉ seqs := by
  rw [← firstIdx_isSome_iff, Option.isSome_iff_ne_none]
  tauto

theorem firstIdx_lt_length (seqs : List Seq) (s : Seq) (j : Nat)
    (h : firstIdx seqs s = some j) : j < seqs.length := by
  induction seqs generalizing j with
  | nil => simp [firstIdx] at h
  | cons t rest ih =>
      by_cases ht : t = s
      · simp only [firstIdx, if_pos ht, Option.some.injEq] at h
        simp only [List.length_cons]
        omega
      · simp only [firstIdx, if_neg ht, Option.map_eq_some'] at h
        obtain ⟨j', hj', rfl⟩ := h
        have := ih j' hj'
        simp only [List.length_cons]
        omega

theorem firstIdx_getElem (seqs : List Seq) (s : Seq) (j : Nat)
    (h : firstIdx seqs s = some j) :
    seqs.get? j = some s ∧ ∀ k < j, seqs.get? k ≠ some s := by
  induction seqs generalizing j with
  | nil => simp [firstIdx] at h
  | cons t rest ih =>
      by_cases ht : t = s
      · simp only [firstIdx, if_pos ht, Option.some.injEq] at h
        subst h
        refine ⟨by simp [ht], ?_⟩
        intro k hk
        omega
      · simp only [firstIdx, if_neg ht, Option.map_eq_some'] at h
        obtain ⟨j', hj', rfl⟩ := h
        obtain ⟨h1, h2⟩ := ih j' hj'
        refine ⟨by simpa using h1, ?_⟩
        intro k hk
        cases k with
        | zero =>
            simp only [List.get?_cons_zero, ne_eq, Option.some.injEq]
            exact ht
        | succ k' =>
            simp only [List.get?_cons_succ]
            exact h2 k' (by omega)

theorem firstIdx_le_of_getElem (seqs : List Seq) (s : Seq) (i : Nat)
    (h : seqs.get? i = some s) : ∃ j, firstIdx seqs s = some j ∧ j ≤ i := by
  induction seqs generalizing i with
  | nil => simp at h
  | cons t rest ih =>
      by_cases ht : t = s
      · exact ⟨0, by simp [firstIdx, ht], Nat.zero_le _⟩
      · cases i with
        | zero =>
            simp only [List.get?_cons_zero, Option.some.injEq] at h
            exact absurd h ht
        | succ i' =>
            simp only [List.get?_cons_succ] at h
            obtain ⟨j, hj, hji⟩ := ih i' h
            exact ⟨j + 1, by simp [firstIdx, ht, hj], by omega⟩

theorem lookupSeq_parseLoop (spacer : Option Seq) (lines : List Seq)
    (idx : Nat) (m : SeqMap) (ix : IdxMap) (s : Seq) :
    lookupSeq (parseLoop spacer lines idx m ix).1 s =
      optOr (lookupSeq m s) ((firstIdx (procs spacer lines) s).map (· + idx)) := by
  induction lines generalizing idx m ix with
  | nil =>
      simp only [parseLoop, procs, List.map_nil, firstIdx, Option.map_none']
      cases lookupSeq m s <;> rfl
  | cons line rest ih =>
      simp only [parseLoop, procs, List.map_cons]
      rw [ih]
      by_cases hb : read_sequence line spacer = s
      · subst hb
        cases hm : lookupSeq m (read_sequence line spacer) with
        | some v => simp [orInsertSeq, hm, optOr, firstIdx]
        | none => simp [orInsertSeq, hm, optOr, firstIdx, lookupSeq_cons]
      · have step : lookupSeq (orInsertSeq m (read_sequence line spacer) idx) s =
            lookupSeq m s := by
          unfold orInsertSeq
          by_cases hp : (lookupSeq m (read_sequence line spacer)).isSome
          · simp [hp]
          · simp [hp, lookupSeq_cons, hb]
        rw [step]
        cases hm : lookupSeq m s with
        | some v => simp [optOr]
        | none =>
            simp only [optOr, firstIdx, if_neg hb]
            have hpr : firstIdx (List.map (fun l => read_sequence l spacer) rest) s
                = firstIdx (procs spacer rest) s := rfl
            rw [hpr]
            cases h : firstIdx (procs spacer rest) s with
            | none => rfl
            | some v =>
                simp only [Option.map_some', Option.some.injEq]
                omega

theorem lookupSeq_parseLoop_nil (spacer : Option Seq) (lines : List Seq) (s : Seq) :
    lookupSeq (parseLoop spacer lines 0 [] []).1 s = firstIdx (procs spacer lines) s := by
  rw [lookupSeq_parseLoop]
  simp only [lookupSeq, optOr]
  cases firstIdx (procs spacer lines) s <;> simp

theorem lookupIdx_parseLoop (spacer : Option Seq) (lines : List Seq)
    (idx : Nat) (m : SeqMap) (ix : IdxMap) (n : Nat)
    (hix : ∀ k, idx ≤ k → lookupIdx ix k = none) :
    lookupIdx (parseLoop spacer lines idx m ix).2 n =
      if n < idx then lookupIdx ix n else (procs spacer lines).get? (n - idx) := by
  induction lines generalizing idx m ix with
  | nil =>
      simp only [parseLoop, procs, List.map_nil, List.get?_nil]
      by_cases h : n < idx
      · simp [h]
      · simp [h, hix n (by omega)]
  | cons line rest ih =>
      simp only [parseLoop, procs, List.map_cons]
      have hfresh : lookupIdx ix idx = none := hix idx (Nat.le_refl _)
      have hins : orInsertIdx ix idx (read_sequence line spacer) =
          (idx, read_sequence line spacer) :: ix := by
        simp [orInsertIdx, hfresh]
      rw [ih (idx + 1) _ _ ?_]
      · by_cases h1 : n < idx
        · have h2 : n < idx + 1 := by omega
          simp only [if_pos h1, if_pos h2, hins, lookupIdx_cons]
          rw [if_neg (by omega)]
        · by_cases h2 : n = idx
          · subst h2
            simp only [if_pos (by omega : n < n + 1), if_neg (by omega : ¬ n < n), hins,
              lookupIdx_cons, if_pos rfl, Nat.sub_self, List.get?_cons_zero]
            simp
          · have h3 : ¬ n < idx + 1 := by omega
            simp only [if_neg h1, if_neg h3]
            have : n - idx = (n - (idx + 1)) + 1 := by omega
            rw [this]
            simp [procs, List.get?_map]
      · intro k hk
        rw [hins, lookupIdx_cons, if_neg (by omega)]
        exact hix k (by omega)

theorem lookupIdx_parseLoop_nil (spacer : Option Seq) (lines : List Seq) (n : Nat) :
    lookupIdx (parseLoop spacer lines 0 [] []).2 n = (procs spacer lines).get? n := by
  rw [lookupIdx_parseLoop spacer lines 0 [] [] n (fun _ _ => rfl)]
  simp

theorem parseLoop_keys_nodup (spacer : Option Seq) (lines : List Seq)
    (idx : Nat) (m : SeqMap) (ix : IdxMap) (hm : (m.map (·.1)).Nodup) :
    (((parseLoop spacer lines idx m ix).1).map (·.1)).Nodup := by
  induction lines generalizing idx m ix with
  | nil => exact hm
  | cons line rest ih =>
      refine ih _ _ _ ?_
      unfold orInsertSeq
      by_cases hp : (lookupSeq m (read_sequence line spacer)).isSome
      · simpa [hp] using hm
      · have : read_sequence line spacer ∉ m.map (·.1) := by
          rw [← lookupSeq_isSome_iff_mem_keys]
          simp [hp]
        simp [hp, hm, this]

theorem parseLoop_keys_mem (spacer : Option Seq) (lines : List Seq) (s : Seq) :
    s ∈ ((parseLoop spacer lines 0 [] []).1).map (·.1) ↔ s ∈ procs spacer lines := by
  rw [← lookupSeq_isSome_iff_mem_keys, lookupSeq_parseLoop_nil, firstIdx_isSome_iff]

/-- Hamming distance of two equal-length sequences (positionwise
disagreement count). -/
def hamming : Seq → Seq → Nat
  | [], _ => 0
  | _, [] => 0
  | x :: xs, y :: ys => (if x = y then 0 else 1) + hamming xs ys

theorem hamming_self (s : Seq) : hamming s s = 0 := by
  induction s with
  | nil => rfl
  | cons x xs ih => simp [hamming, ih]

theorem hamming_eq_zero_iff (xs ys : Seq) (hlen : xs.length = ys.length) :
    hamming xs ys = 0 ↔ xs = ys := by
  induction xs generalizing ys with
  | nil =>
      cases ys with
      | nil => simp [hamming]
      | cons y ys => simp at hlen
  | cons x xs ih =>
      cases ys with
      | nil => simp at hlen
      | cons y ys =>
          simp only [List.length_cons] at hlen
          by_cases hxy : x = y
          · simp [hamming, hxy, ih ys (by omega)]
          · have hne : 1 + hamming xs ys ≠ 0 := by omega
            simp [hamming, hxy, hne]

theorem hamming_set (p : Seq) (i : Nat) (c : Nat) (hi : i < p.length) :
    hamming (p.set i c) p = if c = p.getD i 0 then 0 else 1 := by
  induction p generalizing i with
  | nil => simp at hi
  | cons x xs ih =>
      cases i with
      | zero => simp [hamming, hamming_self, List.getD]
      | succ i' =>
          simp only [List.set_cons_succ, hamming, List.getD_cons_succ]
          rw [ih i' (by simpa using hi)]
          simp

theorem hamming_one_exists (s p : Seq) (hlen : s.length = p.length)
    (h : hamming s p = 1) :
    ∃ i < p.length, s = p.set i (s.getD i 0) ∧ s.getD i 0 ≠ p.getD i 0 := by
  induction s generalizing p with
  | nil =>
      cases p with
      | nil => simp [hamming] at h
      | cons y ys => simp at hlen
  | cons x xs ih =>
      cases p with
      | nil => simp at hlen
      | cons y ys =>
          simp only [List.length_cons] at hlen
          by_cases hxy : x = y
          · simp only [hamming, if_pos hxy] at h
            obtain ⟨i, hi, hset, hne⟩ := ih ys (by omega) (by omega)
            refine ⟨i + 1, by simp [hi], ?_, by simpa using hne⟩
            simp only [List.set_cons_succ, List.getD_cons_succ]
            rw [← hset, hxy]
          · simp only [hamming, if_neg hxy] at h
            have hzero : hamming xs ys = 0 := by omega
            have hxs : xs = ys := (hamming_eq_zero_iff xs ys (by omega)).mp hzero
            exact ⟨0, by simp, by simp [hxs], by simpa using hxy⟩

theorem mem_mutations_iff (p s : Seq) :
    s ∈ mutations p ↔
      ∃ i < p.length, ∃ c ∈ alphabet, c ≠ p.getD i 0 ∧ s = p.set i c := by
  simp only [mutations, List.mem_flatMap, List.mem_range, List.mem_map, List.mem_filter,
    decide_eq_true_eq]
  constructor
  · rintro ⟨i, hi, c, ⟨hca, hcne⟩, rfl⟩
    exact ⟨i, hi, c, hca, hcne, rfl⟩
  · rintro ⟨i, hi, c, hca, hcne, rfl⟩
    exact ⟨i, hi, c, ⟨hca, hcne⟩, rfl⟩

theorem mem_mutations_iff_hamming (p s : Seq)
    (halpha : ∀ c ∈ s, c ∈ alphabet) :
    s ∈ mutations p ↔ s.length = p.length ∧ hamming s p = 1 := by
  rw [mem_mutations_iff]
  constructor
  · rintro ⟨i, hi, c, hca, hcne, rfl⟩
    refine ⟨by simp, ?_⟩
    rw [hamming_set p i c hi, if_neg hcne]
  · rintro ⟨hlen, hham⟩
    obtain ⟨i, hi, hset, hne⟩ := hamming_one_exists s p hlen hham
    refine ⟨i, hi, s.getD i 0, ?_, hne, hset⟩
    apply halpha
    have hi' : i < s.length := by omega
    rw [List.getD_eq_getElem s 0 hi']
    exact List.getElem_mem hi'

theorem countParents_eq_dist_count (P : List Seq) (s : Seq)
    (halpha : ∀ c ∈ s, c ∈ alphabet)
    (hlen : ∀ c ∈ P, c.length = s.length) :
    countParents P s =
      (P.filter (fun c => decide (hamming s c = 1))).length := by
  unfold countParents
  congr 1
  apply List.filter_congr
  intro p hp
  have := hlen p hp
  simp only [decide_eq_decide]
  rw [mem_mutations_iff_hamming p s halpha]
  constructor
  · rintro ⟨_, h⟩
    exact h
  · intro h
    exact ⟨by omega, h⟩


theorem mem_unambiguousPairs_iff (P : List Seq) (c p : Seq) :
    (c, p) ∈ unambiguousPairs P ↔
      p ∈ P ∧ c ∈ mutations p ∧ countParents P c = 1 ∧ c ∉ P := by
  simp only [unambiguousPairs, List.mem_filter, List.mem_flatMap, List.mem_map,
    Bool.and_eq_true, decide_eq_true_eq, Bool.not_eq_true', decide_eq_false_iff_not,
    Prod.mk.injEq]
  constructor
  · rintro ⟨⟨q, hq, c', hc', hc, hp⟩, hcount, hnp⟩
    subst hp
    subst hc
    exact ⟨hq, hc', hcount, hnp⟩
  · rintro ⟨hq, hc', hcount, hnp⟩
    exact ⟨⟨p, hq, c, hc', rfl, rfl⟩, hcount, hnp⟩

theorem two_mem_le_length (l : List Seq) (a b : Seq) (ha : a ∈ l) (hb : b ∈ l)
    (hab : a ≠ b) : 2 ≤ l.length := by
  have h1 : ({a, b} : Finset Seq) ⊆ l.toFinset := by
    intro x hx
    rcases Finset.mem_insert.mp hx with rfl | hx
    · exact List.mem_toFinset.mpr ha
    · rw [Finset.mem_singleton] at hx
      subst hx
      exact List.mem_toFinset.mpr hb
  calc 2 = ({a, b} : Finset Seq).card := (Finset.card_pair hab).symm
    _ ≤ l.toFinset.card := Finset.card_le_card h1
    _ ≤ l.length := l.toFinset_card_le

theorem unambiguousPairs_functional (P : List Seq) (c p p' : Seq)
    (h1 : (c, p) ∈ unambiguousPairs P) (h2 : (c, p') ∈ unambiguousPairs P) :
    p = p' := by
  rw [mem_unambiguousPairs_iff] at h1 h2
  by_contra hne
  have hp : p ∈ P.filter (fun q => decide (c ∈ mutations q)) :=
    List.mem_filter.mpr ⟨h1.1, by simpa using h1.2.1⟩
  have hp' : p' ∈ P.filter (fun q => decide (c ∈ mutations q)) :=
    List.mem_filter.mpr ⟨h2.1, by simpa using h2.2.1⟩
  have htwo := two_mem_le_length _ p p' hp hp' hne
  have := h1.2.2.1
  unfold countParents at this
  omega

theorem foldl_insert_lookup_notmem (ps : List (Seq × Seq)) (acc : SeqMap) (s : Seq)
    (h : s ∉ ps.map (·.1)) :
    lookupSeq (ps.foldl (fun acc cp => insertSeq acc cp.1 ((lookupSeq acc cp.2).getD 0)) acc) s
      = lookupSeq acc s := by
  induction ps generalizing acc with
  | nil => rfl
  | cons cp rest ih =>
      simp only [List.map_cons, List.mem_cons] at h
      push_neg at h
      rw [List.foldl_cons, ih _ h.2]
      simp [insertSeq, lookupSeq_cons, h.1.symm]

theorem foldl_insert_lookup_child (m₀ : SeqMap) (ps : List (Seq × Seq))
    (acc : SeqMap) (s p : Seq)
    (hps : ∀ cp ∈ ps, cp.1 ∉ m₀.map (·.1) ∧ cp.2 ∈ m₀.map (·.1))
    (hacc : ∀ q ∈ m₀.map (·.1), lookupSeq acc q = lookupSeq m₀ q)
    (huni : ∀ cp ∈ ps, ∀ cp' ∈ ps, cp.1 = cp'.1 → cp.2 = cp'.2)
    (hmem : (s, p) ∈ ps) :
    lookupSeq (ps.foldl (fun acc cp => insertSeq acc cp.1 ((lookupSeq acc cp.2).getD 0)) acc) s
      = some ((lookupSeq m₀ p).getD 0) := by
  induction ps generalizing acc with
  | nil => simp at hmem
  | cons cp rest ih =>
      obtain ⟨c₀, p₀⟩ := cp
      have hc₀ := (hps (c₀, p₀) (List.mem_cons_self _ _)).1
      have hp₀ := (hps (c₀, p₀) (List.mem_cons_self _ _)).2
      have hacc' : ∀ q ∈ m₀.map (·.1),
          lookupSeq (insertSeq acc c₀ ((lookupSeq acc p₀).getD 0)) q = lookupSeq m₀ q := by
        intro q hq
        have hqc : c₀ ≠ q := fun he => hc₀ (he ▸ hq)
        simp only [insertSeq, lookupSeq_cons, if_neg hqc]
        exact hacc q hq
      rcases List.mem_cons.mp hmem with heq | hrest
      · have hc : c₀ = s := (congrArg Prod.fst heq).symm
        have hp : p₀ = p := (congrArg Prod.snd heq).symm
        subst hc
        subst hp
        by_cases hin : c₀ ∈ rest.map (·.1)
        · obtain ⟨⟨c', p'⟩, hcp', hc'⟩ := List.mem_map.mp hin
          simp only at hc'
          subst hc'
          have hpeq : p₀ = p' :=
            huni (c', p₀) (List.mem_cons_self _ _) (c', p') (List.mem_cons_of_mem _ hcp') rfl
          have hcp'' : (c', p₀) ∈ rest := hpeq ▸ hcp'
          rw [List.foldl_cons]
          exact ih _ (fun x hx => hps x (List.mem_cons_of_mem _ hx)) hacc'
            (fun x hx y hy => huni x (List.mem_cons_of_mem _ hx) y (List.mem_cons_of_mem _ hy))
            hcp''
        · rw [List.foldl_cons, foldl_insert_lookup_notmem rest _ c₀ hin]
          simp only [insertSeq, lookupSeq_cons, if_pos rfl]
          rw [hacc p₀ hp₀]
          simp
      · rw [List.foldl_cons]
        exact ih _ (fun x hx => hps x (List.mem_cons_of_mem _ hx)) hacc'
          (fun x hx y hy => huni x (List.mem_cons_of_mem _ hx) y (List.mem_cons_of_mem _ hy)) hrest

theorem mem_unambiguousPairs_elim (P : List Seq) (cp : Seq × Seq)
    (h : cp ∈ unambiguousPairs P) :
    cp.2 ∈ P ∧ cp.1 ∈ mutations cp.2 ∧ countParents P cp.1 = 1 ∧ cp.1 ∉ P := by
  have := (mem_unambiguousPairs_iff P cp.1 cp.2).mp (by simpa using h)
  exact this

theorem fuzzyExtend_lookup_notchild (m : SeqMap) (s : Seq)
    (h : s ∉ (unambiguousPairs (m.map (·.1))).map (·.1)) :
    lookupSeq (fuzzyExtend m) s = lookupSeq m s :=
  foldl_insert_lookup_notmem _ _ _ h

theorem fuzzyExtend_lookup_mem_keys (m : SeqMap) (s : Seq) (h : s ∈ m.map (·.1)) :
    lookupSeq (fuzzyExtend m) s = lookupSeq m s := by
  apply fuzzyExtend_lookup_notchild
  intro hmem
  obtain ⟨cp, hcp, hc⟩ := List.mem_map.mp hmem
  exact (mem_unambiguousPairs_elim _ cp hcp).2.2.2 (hc ▸ h)

theorem fuzzyExtend_lookup_child (m : SeqMap) (s p : Seq)
    (hmem : (s, p) ∈ unambiguousPairs (m.map (·.1))) :
    lookupSeq (fuzzyExtend m) s = some ((lookupSeq m p).getD 0) := by
  unfold fuzzyExtend
  refine foldl_insert_lookup_child m _ m s p ?_ (fun q _ => rfl) ?_ hmem
  · intro cp hcp
    have h := mem_unambiguousPairs_elim _ cp hcp
    exact ⟨h.2.2.2, h.1⟩
  · intro cp hcp cp' hcp' hcc
    refine unambiguousPairs_functional (m.map (·.1)) cp.1 cp.2 cp'.2 (by simpa using hcp) ?_
    have : (cp'.1, cp'.2) ∈ unambiguousPairs (m.map (·.1)) := by simpa using hcp'
    rw [← hcc] at this
    exact this

theorem parse_buffer_parts (lines : List Seq) (spacer : Option Seq) (exact : Bool)
    (bc : Barcodes) (h : parse_buffer lines spacer exact = some bc) :
    bc.map = (if exact then (parseLoop spacer lines 0 [] []).1
              else fuzzyExtend (parseLoop spacer lines 0 [] []).1)
    ∧ bc.index = (parseLoop spacer lines 0 [] []).2
    ∧ (∀ c ∈ procs spacer lines, c.length = bc.len)
    ∧ bc.spacer_len = (spacer.map (·.length)).getD 0 := by
  unfold parse_buffer at h
  rcases hsz : ((lines.map (fun l => read_sequence l spacer)).map (·.length)).dedup
    with _ | ⟨n, _ | ⟨m, rest⟩⟩
  · rw [hsz] at h
    simp at h
  · rw [hsz] at h
    simp only [Option.some.injEq] at h
    subst h
    refine ⟨rfl, rfl, ?_, rfl⟩
    intro c hc
    have hmem : c.length ∈ ((lines.map (fun l => read_sequence l spacer)).map (·.length)) := by
      apply List.mem_map.mpr
      exact ⟨c, by simpa [procs] using hc, rfl⟩
    rw [← List.mem_dedup, hsz] at hmem
    simpa using hmem
  · rw [hsz] at h
    simp at h

theorem parseLoop_keys_perm (spacer : Option Seq) (lines : List Seq) :
    (((parseLoop spacer lines 0 [] []).1).map (·.1)).Perm ((procs spacer lines).dedup) := by
  refine (List.perm_ext_iff_of_nodup ?_ (List.nodup_dedup _)).mpr ?_
  · exact parseLoop_keys_nodup spacer lines 0 [] [] (by simp)
  · intro a
    rw [parseLoop_keys_mem, List.mem_dedup]

theorem countParents_keys_eq (spacer : Option Seq) (lines : List Seq) (s : Seq)
    (halpha : ∀ c ∈ s, c ∈ alphabet)
    (hlen : ∀ c ∈ procs spacer lines, c.length = s.length) :
    countParents (((parseLoop spacer lines 0 [] []).1).map (·.1)) s =
      (((procs spacer lines).dedup).filter (fun c => decide (hamming s c = 1))).length := by
  have hperm := parseLoop_keys_perm spacer lines
  have hlen' : ∀ c ∈ ((parseLoop spacer lines 0 [] []).1).map (·.1), c.length = s.length := by
    intro c hc
    exact hlen c ((parseLoop_keys_mem spacer lines c).mp hc)
  rw [countParents_eq_dist_count _ s halpha hlen']
  exact (hperm.filter _).length_eq

theorem get_id_exact (lines : List Seq) (spacer : Option Seq) (bc : Barcodes)
    (h : parse_buffer lines spacer true = some bc) (s : Seq) :
    bc.get_id s = firstIdx (procs spacer lines) s := by
  have hm := (parse_buffer_parts lines spacer true bc h).1
  simp only [if_true] at hm
  unfold Barcodes.get_id
  rw [hm, lookupSeq_parseLoop_nil]

theorem get_id_fuzzy_canonical (lines : List Seq) (spacer : Option Seq) (bc : Barcodes)
    (h : parse_buffer lines spacer false = some bc) (s : Seq)
    (hs : s ∈ procs spacer lines) :
    bc.get_id s = firstIdx (procs spacer lines) s := by
  have hm := (parse_buffer_parts lines spacer false bc h).1
  simp only [Bool.false_eq_true, if_false] at hm
  unfold Barcodes.get_id
  rw [hm, fuzzyExtend_lookup_mem_keys _ _ ((parseLoop_keys_mem spacer lines s).mpr hs),
    lookupSeq_parseLoop_nil]

theorem get_id_fuzzy_child (lines : List Seq) (spacer : Option Seq) (bc : Barcodes)
    (h : parse_buffer lines spacer false = some bc) (s p : Seq)
    (hsp : (s, p) ∈ unambiguousPairs (((parseLoop spacer lines 0 [] []).1).map (·.1))) :
    bc.get_id s = firstIdx (procs spacer lines) p := by
  have hm := (parse_buffer_parts lines spacer false bc h).1
  simp only [Bool.false_eq_true, if_false] at hm
  unfold Barcodes.get_id
  rw [hm, fuzzyExtend_lookup_child _ _ _ hsp, lookupSeq_parseLoop_nil]
  have hp : p ∈ procs spacer lines := by
    rw [← parseLoop_keys_mem spacer lines p]
    exact (mem_unambiguousPairs_elim _ _ hsp).1
  obtain ⟨v, hv⟩ := Option.isSome_iff_exists.mp
    ((firstIdx_isSome_iff (procs spacer lines) p).mpr hp)
  rw [hv]
  rfl

theorem get_id_fuzzy_notchild (lines : List Seq) (spacer : Option Seq) (bc : Barcodes)
    (h : parse_buffer lines spacer false = some bc) (s : Seq)
    (hs : s ∉ procs spacer lines)
    (hnc : s ∉ (unambiguousPairs (((parseLoop spacer lines 0 [] []).1).map (·.1))).map (·.1)) :
    bc.get_id s = none := by
  have hm := (parse_buffer_parts lines spacer false bc h).1
  simp only [Bool.false_eq_true, if_false] at hm
  unfold Barcodes.get_id
  rw [hm, fuzzyExtend_lookup_notchild _ _ hnc, lookupSeq_parseLoop_nil,
    firstIdx_eq_none_iff]
  exact hs

/-- C1: for a successfully loaded barcode set (canonical sequences =
the processed input lines), the lookup built by `parse_buffer`
satisfies: in exact mode `get_id s` returns an index iff `s` is a
canonical sequence (any non-canonical single-substitution variant gives
no-match); in fuzzy mode a canonical maps to its first index, a
nucleotide sequence at Hamming distance 1 from exactly one distinct
canonical maps to that canonical's index, one equidistant from two or
more canonicals gives no-match, and one at distance 1 from no canonical
(hence distance 2 or more from all) gives no-match. -/
theorem claim_C1_lookup_table (lines : List Seq) (spacer : Option Seq)
    (bcE bcF : Barcodes) (s : Seq)
    (hE : parse_buffer lines spacer true = some bcE)
    (hF : parse_buffer lines spacer false = some bcF)
    (halpha : ∀ c ∈ s, c ∈ alphabet)
    (hslen : s.length = bcF.len) :
    (((bcE.get_id s).isSome ↔ s ∈ procs spacer lines)
      ∧ (s ∉ procs spacer lines → bcE.get_id s = none))
    ∧ ((s ∈ procs spacer lines → bcF.get_id s = firstIdx (procs spacer lines) s)
      ∧ (∀ c, s ∉ procs spacer lines →
          ((procs spacer lines).dedup).filter (fun c => decide (hamming s c = 1)) = [c] →
          bcF.get_id s = firstIdx (procs spacer lines) c)
      ∧ (s ∉ procs spacer lines →
          2 ≤ (((procs spacer lines).dedup).filter (fun c => decide (hamming s c = 1))).length →
          bcF.get_id s = none)
      ∧ (s ∉ procs spacer lines →
          (∀ c ∈ (procs spacer lines).dedup, hamming s c ≠ 1) →
          bcF.get_id s = none)) := by
  have hlenp : ∀ x ∈ procs spacer lines, x.length = s.length := by
    intro x hx
    have := (parse_buffer_parts lines spacer false bcF hF).2.2.1 x hx
    omega
  have hcount := countParents_keys_eq spacer lines s halpha hlenp
  have hnotchild : countParents (((parseLoop spacer lines 0 [] []).1).map (·.1)) s ≠ 1 →
      s ∉ (unambiguousPairs (((parseLoop spacer lines 0 [] []).1).map (·.1))).map (·.1) := by
    intro hne hmem
    obtain ⟨cp, hcp, hc⟩ := List.mem_map.mp hmem
    have := (mem_unambiguousPairs_elim _ cp hcp).2.2.1
    rw [hc] at this
    exact hne this
  refine ⟨⟨?_, ?_⟩, ?_, ?_, ?_, ?_⟩
  · rw [get_id_exact lines spacer bcE hE s]
    exact firstIdx_isSome_iff _ _
  · intro hs
    rw [get_id_exact lines spacer bcE hE s, firstIdx_eq_none_iff]
    exact hs
  · exact get_id_fuzzy_canonical lines spacer bcF hF s
  · intro c hs hfilter
    have hcmem : c ∈ (procs spacer lines).dedup := by
      have : c ∈ ((procs spacer lines).dedup).filter (fun c => decide (hamming s c = 1)) := by
        rw [hfilter]
        exact List.mem_singleton.mpr rfl
      exact List.mem_of_mem_filter this
    have hcham : hamming s c = 1 := by
      have : c ∈ ((procs spacer lines).dedup).filter (fun c => decide (hamming s c = 1)) := by
        rw [hfilter]
        exact List.mem_singleton.mpr rfl
      simpa using (List.mem_filter.mp this).2
    have hcproc : c ∈ procs spacer lines := List.mem_dedup.mp hcmem
    have hpair : (s, c) ∈ unambiguousPairs (((parseLoop spacer lines 0 [] []).1).map (·.1)) := by
      rw [mem_unambiguousPairs_iff]
      refine ⟨(parseLoop_keys_mem spacer lines c).mpr hcproc, ?_, ?_, ?_⟩
      · rw [mem_mutations_iff_hamming c s halpha]
        exact ⟨by rw [hlenp c hcproc], hcham⟩
      · rw [hcount, hfilter]
        rfl
      · intro hmem
        exact hs ((parseLoop_keys_mem spacer lines s).mp hmem)
    exact get_id_fuzzy_child lines spacer bcF hF s c hpair
  · intro hs htwo
    refine get_id_fuzzy_notchild lines spacer bcF hF s hs (hnotchild ?_)
    omega
  · intro hs hzero
    refine get_id_fuzzy_notchild lines spacer bcF hF s hs (hnotchild ?_)
    have : ((procs spacer lines).dedup).filter (fun c => decide (hamming s c = 1)) = [] := by
      rw [List.filter_eq_nil]
      intro c hc
      simpa using hzero c hc
    rw [hcount, this]
    simp

/-- The barcode set [AA, CC] used to witness the dictionary claims. -/
def linesW1 : List Seq := [[65, 65], [67, 67]]

/-- The exact-mode dictionary of `linesW1`. -/
def bcW1E : Barcodes := (parse_buffer linesW1 none true).getD ⟨[], [], 0, 0⟩

/-- The fuzzy-mode dictionary of `linesW1`. -/
def bcW1F : Barcodes := (parse_buffer linesW1 none false).getD ⟨[], [], 0, 0⟩

/-- Witness for C1: GA is at Hamming distance 1 only from AA, and the
fuzzy lookup maps it to index 0. -/
theorem claim_C1_lookup_table_witness : bcW1F.get_id [71, 65] = some 0 := by
  have h := claim_C1_lookup_table linesW1 none bcW1E bcW1F [71, 65]
    (by decide) (by decide) (by decide) (by decide)
  rw [h.2.2.1 [65, 65] (by decide) (by decide)]
  decide

/-- C2 (amended): dictionary construction fails iff the number of
distinct processed line lengths differs from 1 — i.e. more than one
distinct length, or no lines at all. -/
theorem claim_C2_length_variance (lines : List Seq) (spacer : Option Seq) (exact : Bool) :
    parse_buffer lines spacer exact = none ↔
      ((lines.map (fun l => read_sequence l spacer)).map (·.length)).dedup.length ≠ 1 := by
  unfold parse_buffer
  rcases hsz : ((lines.map (fun l => read_sequence l spacer)).map (·.length)).dedup
    with _ | ⟨n, _ | ⟨m, rest⟩⟩ <;> rw [hsz] <;> simp

/-- Counterexample for C2 as frozen: on empty input the set of line
lengths has zero distinct values — not more than one — yet
construction still fails with the length-variance error. -/
theorem claim_C2_counterexample :
    parse_buffer [] none true = none ∧
    (([] : List Seq).map (fun l => read_sequence l none)).map (·.length) = [] := by
  exact ⟨rfl, rfl⟩

/-- C10 (amended): `get_id` of a canonical sequence is the index of the
earliest line whose processed form equals it; hence the round-trip
`get_id (get_barcode i)` yields the first index whose processed line
equals processed line `i` — equal to `i` itself when the processed
lines are distinct. -/
theorem claim_C10_roundtrip (lines : List Seq) (spacer : Option Seq) (exact : Bool)
    (bc : Barcodes) (h : parse_buffer lines spacer exact = some bc) :
    (∀ s ∈ procs spacer lines, bc.get_id s = firstIdx (procs spacer lines) s)
    ∧ (∀ i c, bc.get_barcode i = some c →
        ∃ j, bc.get_id c = some j ∧ j ≤ i ∧ (procs spacer lines).get? j = some c ∧
          ∀ k < j, (procs spacer lines).get? k ≠ some c)
    ∧ ((procs spacer lines).Nodup → ∀ i c, bc.get_barcode i = some c →
        bc.get_id c = some i) := by
  have hidx : ∀ i, lookupIdx bc.index i = (procs spacer lines).get? i := by
    intro i
    rw [(parse_buffer_parts lines spacer exact bc h).2.1, lookupIdx_parseLoop_nil]
  have hcanon : ∀ s ∈ procs spacer lines, bc.get_id s = firstIdx (procs spacer lines) s := by
    intro s hs
    cases exact with
    | true => exact get_id_exact lines spacer bc h s
    | false => exact get_id_fuzzy_canonical lines spacer bc h s hs
  refine ⟨hcanon, ?_, ?_⟩
  · intro i c hc
    rw [Barcodes.get_barcode, hidx i] at hc
    have hcmem : c ∈ procs spacer lines := List.get?_mem hc
    obtain ⟨j, hj, hji⟩ := firstIdx_le_of_getElem _ c i hc
    obtain ⟨hget, hmin⟩ := firstIdx_getElem _ c j hj
    exact ⟨j, by rw [hcanon c hcmem, hj], hji, hget, hmin⟩
  · intro hnodup i c hc
    rw [Barcodes.get_barcode, hidx i] at hc
    have hcmem : c ∈ procs spacer lines := List.get?_mem hc
    obtain ⟨j, hj, hji⟩ := firstIdx_le_of_getElem _ c i hc
    obtain ⟨hget, _⟩ := firstIdx_getElem _ c j hj
    have hij : j = i := by
      have hjlt : j < (procs spacer lines).length := firstIdx_lt_length _ c j hj
      exact List.get?_inj hjlt hnodup (by rw [hget, hc])
    rw [hcanon c hcmem, hj, hij]

/-- Witness for C10: in the distinct set [AA, CC], the round trip at
index 1 returns index 1. -/
theorem claim_C10_roundtrip_witness : bcW1F.get_id [67, 67] = some 1 := by
  have h := claim_C10_roundtrip linesW1 none false bcW1F (by decide)
  exact h.2.2 (by decide) 1 [67, 67] (by decide)

/-- Counterexample for C10 as frozen: the input lines AA and (space)AA
are distinct, yet (because lines are trimmed) both process to AA, so
the round trip at index 1 returns index 0, not 1. -/
theorem claim_C10_counterexample :
    ([[65, 65], [32, 65, 65]] : List Seq).Nodup ∧
    ((parse_buffer [[65, 65], [32, 65, 65]] none true).map
      (fun bc => bc.get_barcode 1 >>= bc.get_id)) = some (some 0) := by
  exact ⟨by decide, rfl⟩

theorem sliceList_getElem? (s : Seq) (a b n : Nat) :
    (sliceList s a b)[n]? = if a + n < b then s[a + n]? else none := by
  unfold sliceList
  rw [List.getElem?_drop, List.getElem?_take]

theorem sliceList_length (s : Seq) (a b : Nat) (hb : b ≤ s.length) (hab : a ≤ b) :
    (sliceList s a b).length = b - a := by
  unfold sliceList
  simp only [List.length_drop, List.length_take]
  omega

theorem sliceList_sliceList (s : Seq) (a b p q : Nat) (h : a + q ≤ b) :
    sliceList (sliceList s a b) p q = sliceList s (a + p) (a + q) := by
  apply List.ext_getElem?
  intro n
  rw [sliceList_getElem? (sliceList s a b) p q n, sliceList_getElem? s (a + p) (a + q) n]
  by_cases h1 : p + n < q
  · rw [if_pos h1, if_pos (by omega), sliceList_getElem?, if_pos (by omega)]
    congr 1
    omega
  · rw [if_neg h1, if_neg (by omega)]

theorem range_find?_eq_none (N : Nat) (f : Nat → Bool) :
    (List.range N).find? f = none ↔ ∀ q < N, f q = false := by
  rw [List.find?_eq_none]
  constructor
  · intro h q hq
    have := h q (List.mem_range.mpr hq)
    simpa using this
  · intro h x hx
    simp [h x (List.mem_range.mp hx)]

theorem range_find?_eq_some (N p : Nat) (f : Nat → Bool) :
    (List.range N).find? f = some p ↔
      p < N ∧ f p = true ∧ ∀ q < p, f q = false := by
  induction N generalizing p with
  | zero => simp [List.range_zero]
  | succ N ih =>
      rw [List.range_succ, List.find?_append]
      by_cases hl : (List.range N).find? f = none
      · rw [hl]
        have hall := (range_find?_eq_none N f).mp hl
        simp only [Option.none_or]
        constructor
        · intro h
          by_cases hfN : f N
          · simp only [List.find?, hfN] at h
            simp only [Option.some.injEq] at h
            subst h
            exact ⟨by omega, hfN, fun q hq => hall q hq⟩
          · simp [List.find?, hfN] at h
        · rintro ⟨hpN, hfp, hmin⟩
          have hpeq : p = N := by
            by_contra hne
            have : p < N := by omega
            have := hall p this
            rw [this] at hfp
            exact absurd hfp (by simp)
          subst hpeq
          simp [List.find?, hfp]
      · obtain ⟨v, hv⟩ := Option.ne_none_iff_exists'.mp hl
        rw [hv]
        simp only [Option.or]
        constructor
        · rintro h
          simp only [Option.some.injEq] at h
          subst h
          have := (ih v).mp hv
          exact ⟨by omega, this.2.1, this.2.2⟩
        · rintro ⟨hpN, hfp, hmin⟩
          have hvp := (ih v).mp hv
          have : v = p := by
            rcases Nat.lt_trichotomy v p with hlt | heq | hgt
            · have := hmin v hlt
              rw [this] at hvp
              simp at hvp
            · exact heq
            · have := hvp.2.2 p hgt
              rw [this] at hfp
              exact absurd hfp (by simp)
          rw [this]

/-- C3 (amended): for any dictionary, out-of-range or inverted bounds
or a window shorter than the key length give no-match and never a
failure; when the key length `L` is at least 1 (the amendment — for
`L = 0` the otherwise-branch panics, see the counterexample) and the
bounds are admissible, the matcher returns no-match exactly when no
length-`L` window of `s[a..b]` is a key, and `(p + L, i)` exactly when
`p` is the leftmost window position (relative to `a`) whose window is
bound to `i` in the lookup. -/
theorem claim_C3_match_window (bc : Barcodes) (s : Seq) (a b : Nat) :
    ((a > s.length ∨ b > s.length ∨ a > b ∨ b - a < bc.len) →
      bc.match_subsequence s a b = .ok none)
    ∧ (1 ≤ bc.len → a ≤ s.length → b ≤ s.length → a ≤ b → bc.len ≤ b - a →
        ((bc.match_subsequence s a b = .ok none ↔
            ∀ p, p + bc.len ≤ b - a →
              lookupSeq bc.map (sliceList s (a + p) (a + p + bc.len)) = none)
          ∧ (∀ e i, bc.match_subsequence s a b = .ok (some (e, i)) ↔
              ∃ p, e = p + bc.len ∧ p + bc.len ≤ b - a ∧
                lookupSeq bc.map (sliceList s (a + p) (a + p + bc.len)) = some i ∧
                ∀ q < p, lookupSeq bc.map (sliceList s (a + q) (a + q + bc.len)) = none))) := by
  constructor
  · intro hcond
    unfold Barcodes.match_subsequence
    by_cases hg : a > s.length ∨ b > s.length ∨ a > b
    · rw [if_pos hg]
    · rw [if_neg hg]
      push_neg at hg
      have hshort : b - a < bc.len := by
        rcases hcond with h | h | h | h
        · omega
        · omega
        · omega
        · exact h
      unfold Barcodes.match_sequence
      rw [sliceList_length s a b (by omega) (by omega), if_pos hshort]
  · intro h1 ha hb hab hlen
    have hg : ¬(a > s.length ∨ b > s.length ∨ a > b) := by omega
    have hsl : (sliceList s a b).length = b - a := sliceList_length s a b hb hab
    have hss : ∀ p, p + bc.len ≤ b - a →
        sliceList (sliceList s a b) p (p + bc.len) = sliceList s (a + p) (a + p + bc.len) := by
      intro p hp
      rw [sliceList_sliceList s a b p (p + bc.len) (by omega), Nat.add_assoc]
    have hmain : bc.match_subsequence s a b =
        .ok ((windowPos bc.map bc.len (sliceList s a b)).map
          (fun p => (p + bc.len,
            (lookupSeq bc.map (sliceList (sliceList s a b) p (p + bc.len))).getD 0))) := by
      unfold Barcodes.match_subsequence
      rw [if_neg hg]
      unfold Barcodes.match_sequence
      rw [hsl, if_neg (by omega), if_neg (by omega)]
    set N := (b - a) - bc.len + 1 with hN
    have hNiff : ∀ p, p < N ↔ p + bc.len ≤ b - a := by
      intro p
      omega
    constructor
    · rw [hmain]
      simp only [Except.ok.injEq, Option.map_eq_none']
      unfold windowPos
      rw [hsl, range_find?_eq_none]
      constructor
      · intro h p hp
        have := h p ((hNiff p).mpr hp)
        rw [hss p hp] at this
        simpa [Option.isSome_iff_ne_none] using this
      · intro h q hq
        have hq' := (hNiff q).mp hq
        rw [hss q hq']
        simp [h q hq']
    · intro e i
      rw [hmain]
      simp only [Except.ok.injEq]
      constructor
      · intro h
        obtain ⟨p, hwp, heq⟩ := Option.map_eq_some'.mp h
        unfold windowPos at hwp
        rw [hsl] at hwp
        obtain ⟨hpN, hfp, hmin⟩ := (range_find?_eq_some N p _).mp hwp
        have hple := (hNiff p).mp hpN
        rw [hss p hple] at hfp
        obtain ⟨v, hv⟩ := Option.isSome_iff_exists.mp hfp
        have he : e = p + bc.len := (congrArg Prod.fst heq).symm
        have hi : (lookupSeq bc.map (sliceList s (a + p) (a + p + bc.len))).getD 0 = i := by
          have := congrArg Prod.snd heq
          simpa [hss p hple] using this
        refine ⟨p, he, hple, ?_, ?_⟩
        · rw [hv] at hi ⊢
          simp only [Option.getD_some] at hi
          rw [hi]
        · intro q hq
          have hqle : q + bc.len ≤ b - a := by omega
          have := hmin q hq
          rw [hss q hqle] at this
          simpa [Option.isSome_iff_ne_none] using this
      · rintro ⟨p, he, hple, hfound, hmin⟩
        have hwp : windowPos bc.map bc.len (sliceList s a b) = some p := by
          unfold windowPos
          rw [hsl, range_find?_eq_some]
          refine ⟨(hNiff p).mpr hple, ?_, ?_⟩
          · rw [hss p hple, hfound]
            rfl
          · intro q hq
            have hqle : q + bc.len ≤ b - a := by omega
            rw [hss q hqle, hmin q hq]
            rfl
        rw [hwp]
        simp only [Option.map_some']
        rw [hss p hple, hfound, he]
        rfl

/-- Counterexample for C3 as frozen: a dictionary built from a single
empty line has key length 0; with in-range bounds the claim promises a
returned match or no-match, but `sequence.windows(0)` panics. -/
theorem claim_C3_counterexample :
    (parse_buffer [[]] none true).map (fun bc => bc.match_subsequence [] 0 0) =
      some (.error ()) := rfl

/-- Witness for C3: on the [AA, CC] dictionary (L = 2) a search window
of [1, 4) over GAAG finds AA at window position 0, reported as end 2,
index 0. -/
theorem claim_C3_match_window_witness :
    bcW1F.match_subsequence [71, 65, 65, 71] 1 4 = .ok (some (2, 0)) := by
  have h := (claim_C3_match_window bcW1F [71, 65, 65, 71] 1 4).2
    (by decide) (by decide) (by decide) (by decide) (by decide)
  rw [(h.2 2 0).mpr]
  refine ⟨0, by decide, by decide, by decide, ?_⟩
  intro q hq
  omega

theorem match_subsequence_ok_some (bc : Barcodes) (s : Seq) (a b e i : Nat)
    (h : bc.match_subsequence s a b = .ok (some (e, i))) :
    a ≤ s.length ∧ b ≤ s.length ∧ a ≤ b ∧ 1 ≤ bc.len ∧ bc.len ≤ e ∧ e ≤ b - a ∧
    ∃ w, lookupSeq bc.map w = some i := by
  unfold Barcodes.match_subsequence at h
  by_cases hg : a > s.length ∨ b > s.length ∨ a > b
  · rw [if_pos hg] at h
    simp at h
  · rw [if_neg hg] at h
    push_neg at hg
    unfold Barcodes.match_sequence at h
    by_cases hshort : (sliceList s a b).length < bc.len
    · rw [if_pos hshort] at h
      simp at h
    · rw [if_neg hshort] at h
      by_cases hzero : bc.len = 0
      · rw [if_pos hzero] at h
        simp at h
      · rw [if_neg hzero] at h
        simp only [Except.ok.injEq] at h
        obtain ⟨p, hwp, heq⟩ := Option.map_eq_some'.mp h
        unfold windowPos at hwp
        obtain ⟨hpN, hfp, _⟩ := (range_find?_eq_some _ p _).mp hwp
        have hsl : (sliceList s a b).length = b - a :=
          sliceList_length s a b (by omega) (by omega)
        have he : e = p + bc.len := (congrArg Prod.fst heq).symm
        obtain ⟨v, hv⟩ := Option.isSome_iff_exists.mp hfp
        have hi : v = i := by
          have := congrArg Prod.snd heq
          simpa [hv] using this
        exact ⟨by omega, by omega, by omega, by omega, by omega, by omega,
          ⟨_, by rw [hv, hi]⟩⟩

theorem map_value_valid (lines : List Seq) (spacer : Option Seq) (exact : Bool)
    (bc : Barcodes) (h : parse_buffer lines spacer exact = some bc)
    (w : Seq) (v : Nat) (hw : lookupSeq bc.map w = some v) :
    ∃ c, lookupIdx bc.index v = some c ∧ c.length = bc.len := by
  have hparts := parse_buffer_parts lines spacer exact bc h
  have hm0 : ∃ t, lookupSeq (parseLoop spacer lines 0 [] []).1 t = some v := by
    rcases exact with _ | _
    · rw [hparts.1] at hw
      simp only [Bool.false_eq_true, if_false] at hw
      by_cases hchild :
          w ∈ (unambiguousPairs (((parseLoop spacer lines 0 [] []).1).map (·.1))).map (·.1)
      · obtain ⟨⟨c', p'⟩, hcp, hc⟩ := List.mem_map.mp hchild
        simp only at hc
        subst hc
        rw [fuzzyExtend_lookup_child _ _ _ hcp] at hw
        have hp'mem : p' ∈ ((parseLoop spacer lines 0 [] []).1).map (·.1) :=
          (mem_unambiguousPairs_elim _ _ hcp).1
        obtain ⟨u, hu⟩ := Option.isSome_iff_exists.mp
          ((lookupSeq_isSome_iff_mem_keys _ _).mpr hp'mem)
        rw [hu] at hw
        simp only [Option.getD_some, Option.some.injEq] at hw
        exact ⟨p', by rw [hu, hw]⟩
      · rw [fuzzyExtend_lookup_notchild _ _ hchild] at hw
        exact ⟨w, hw⟩
    · rw [hparts.1] at hw
      simp only [if_true] at hw
      exact ⟨w, hw⟩
  obtain ⟨t, ht⟩ := hm0
  rw [lookupSeq_parseLoop_nil] at ht
  have hvlt := firstIdx_lt_length _ t v ht
  obtain ⟨c, hc⟩ : ∃ c, (procs spacer lines).get? v = some c := by
    rw [List.get?_eq_getElem?]
    exact ⟨_, List.getElem?_eq_getElem hvlt⟩
  refine ⟨c, ?_, ?_⟩
  · rw [hparts.2.1, lookupIdx_parseLoop_nil]
    exact hc
  · exact hparts.2.2.1 c (List.get?_mem hc)

/-- C4: stage 1 searches set 1's lookup over the window
[0, L1 + offset) of read-1; stages 2–4 search the corresponding set
over exactly [prev_end, prev_end + L_i); and on the first failing stage
i exactly the stage-i filtered counter is incremented, no later stage
runs, and the read pair is dropped (no output). -/
theorem claim_C4_stage_windows (cfg : Config) (off ul : Nat) (stats : Statistics)
    (r1 r2 : Record) :
    (cfg.match_subsequence r1.seq 0 0 (some off)
        = cfg.bc1.match_subsequence r1.seq 0 (cfg.bc1.len + off)
      ∧ (∀ p, cfg.match_subsequence r1.seq 1 p none
            = cfg.bc2.match_subsequence r1.seq p (p + cfg.bc2.len))
      ∧ (∀ p, cfg.match_subsequence r1.seq 2 p none
            = cfg.bc3.match_subsequence r1.seq p (p + cfg.bc3.len))
      ∧ (∀ p, cfg.match_subsequence r1.seq 3 p none
            = cfg.bc4.match_subsequence r1.seq p (p + cfg.bc4.len)))
    ∧ (cfg.match_subsequence r1.seq 0 0 (some off) = .ok none →
        processPair cfg off ul stats r1 r2 =
          .ok ({ stats with
                 total_reads := stats.total_reads + 1
                 num_filtered_1 := stats.num_filtered_1 + 1 }, none))
    ∧ (∀ e1 b1, cfg.match_subsequence r1.seq 0 0 (some off) = .ok (some (e1, b1)) →
        cfg.match_subsequence r1.seq 1 e1 none = .ok none →
        processPair cfg off ul stats r1 r2 =
          .ok ({ stats with
                 total_reads := stats.total_reads + 1
                 num_filtered_2 := stats.num_filtered_2 + 1 }, none))
    ∧ (∀ e1 b1 n2 b2, cfg.match_subsequence r1.seq 0 0 (some off) = .ok (some (e1, b1)) →
        cfg.match_subsequence r1.seq 1 e1 none = .ok (some (n2, b2)) →
        cfg.match_subsequence r1.seq 2 (e1 + n2) none = .ok none →
        processPair cfg off ul stats r1 r2 =
          .ok ({ stats with
                 total_reads := stats.total_reads + 1
                 num_filtered_3 := stats.num_filtered_3 + 1 }, none))
    ∧ (∀ e1 b1 n2 b2 n3 b3,
        cfg.match_subsequence r1.seq 0 0 (some off) = .ok (some (e1, b1)) →
        cfg.match_subsequence r1.seq 1 e1 none = .ok (some (n2, b2)) →
        cfg.match_subsequence r1.seq 2 (e1 + n2) none = .ok (some (n3, b3)) →
        cfg.match_subsequence r1.seq 3 (e1 + n2 + n3) none = .ok none →
        processPair cfg off ul stats r1 r2 =
          .ok ({ stats with
                 total_reads := stats.total_reads + 1
                 num_filtered_4 := stats.num_filtered_4 + 1 }, none)) := by
  refine ⟨⟨?_, fun p => rfl, fun p => rfl, fun p => rfl⟩, ?_, ?_, ?_, ?_⟩
  · show cfg.bc1.match_subsequence r1.seq 0 (0 + cfg.bc1.len + off)
        = cfg.bc1.match_subsequence r1.seq 0 (cfg.bc1.len + off)
    rw [Nat.zero_add]
  · intro h1
    unfold processPair
    simp only [h1]
  · intro e1 b1 h1 h2
    unfold processPair
    simp only [h1, h2]
  · intro e1 b1 n2 b2 h1 h2 h3
    unfold processPair
    simp only [h1, h2, h3]
  · intro e1 b1 n2 b2 n3 b3 h1 h2 h3 h4
    unfold processPair
    simp only [h1, h2, h3, h4]

/-- A tiny four-set configuration for the pipeline witnesses: set 1 is
AA with spacer C, set 2 GG with spacer T, set 3 CC with spacer A, set 4
TT with no spacer, exact matching, spacers kept in output. -/
def cfgW : Config :=
  (Config.from_sets [[65, 65]] [[71, 71]] [[67, 67]] [[84, 84]]
    [67] [84] [65] true true).getD
    ⟨⟨[], [], 0, 0⟩, ⟨[], [], 0, 0⟩, ⟨[], [], 0, 0⟩, ⟨[], [], 0, 0⟩, true⟩

/-- A read-1 record that matches all four stages of `cfgW` followed by
the two-byte UMI GA, with a quality string of the same length. -/
def r1W : Record :=
  { id := [114, 49],
    seq := [65, 65, 67, 71, 71, 84, 67, 67, 65, 84, 84, 71, 65],
    qual := [48, 49, 50, 51, 52, 53, 54, 55, 56, 57, 58, 59, 60] }

/-- A read-2 record passed through unchanged by the pipeline. -/
def r2W : Record := { id := [114, 50], seq := [78, 78], qual := [73, 73] }

/-- A read-1 record rejected at stage 1 of `cfgW`. -/
def r1Wbad : Record :=
  { id := [120], seq := [84, 84, 84, 84, 84, 84, 84, 84, 84, 84, 84, 84, 84],
    qual := [48, 49, 50, 51, 52, 53, 54, 55, 56, 57, 58, 59, 60] }

/-- Witness for C4: a read failing stage 1 increments exactly the
stage-1 filtered counter and is dropped. -/
theorem claim_C4_stage_windows_witness :
    processPair cfgW 0 2 Statistics.new r1Wbad r2W =
      .ok ({ Statistics.new with total_reads := 1, num_filtered_1 := 1 }, none) := by
  have h := (claim_C4_stage_windows cfgW 0 2 Statistics.new r1Wbad r2W).2.1 rfl
  rw [h]
  rfl

theorem from_sets_inv (l1 l2 l3 l4 : List Seq) (s1 s2 s3 : Seq)
    (exact linkers : Bool) (cfg : Config)
    (hcfg : Config.from_sets l1 l2 l3 l4 s1 s2 s3 exact linkers = some cfg) :
    parse_buffer l1 (some s1) exact = some cfg.bc1
    ∧ parse_buffer l2 (some s2) exact = some cfg.bc2
    ∧ parse_buffer l3 (some s3) exact = some cfg.bc3
    ∧ parse_buffer l4 none exact = some cfg.bc4
    ∧ cfg.linkers = linkers := by
  unfold Config.from_sets at hcfg
  rcases hp1 : parse_buffer l1 (some s1) exact with _ | bc1' <;> rw [hp1] at hcfg
  · simp at hcfg
  rcases hp2 : parse_buffer l2 (some s2) exact with _ | bc2' <;> rw [hp2] at hcfg
  · simp at hcfg
  rcases hp3 : parse_buffer l3 (some s3) exact with _ | bc3' <;> rw [hp3] at hcfg
  · simp at hcfg
  rcases hp4 : parse_buffer l4 none exact with _ | bc4' <;> rw [hp4] at hcfg
  · simp at hcfg
  simp only [Option.some.injEq] at hcfg
  subst hcfg
  exact ⟨rfl, rfl, rfl, rfl, rfl⟩

theorem spacer_len_none (lines : List Seq) (exact : Bool) (bc : Barcodes)
    (h : parse_buffer lines none exact = some bc) : bc.spacer_len = 0 := by
  have := (parse_buffer_parts lines none exact bc h).2.2.2
  simpa using this

theorem get_barcode_spacer_of_valid (lines : List Seq) (spacer : Option Seq)
    (exact : Bool) (bc : Barcodes) (h : parse_buffer lines spacer exact = some bc)
    (b : Nat) (w : Seq) (hw : lookupSeq bc.map w = some b) (flag : Bool) :
    ∃ x, bc.get_barcode_spacer b flag = some x ∧ x.length ≤ bc.len := by
  obtain ⟨c, hc, hclen⟩ := map_value_valid lines spacer exact bc h w b hw
  refine ⟨if flag then c else c.take (c.length - bc.spacer_len), ?_, ?_⟩
  · unfold Barcodes.get_barcode_spacer
    rw [hc]
    rfl
  · cases flag with
    | true => simpa using Nat.le_of_eq hclen
    | false =>
        simp only [Bool.false_eq_true, if_false]
        calc (c.take (c.length - bc.spacer_len)).length ≤ c.length :=
              by simpa using List.length_take_le _ _
          _ = bc.len := hclen

theorem get_barcode_spacer_zero (bc : Barcodes) (h : bc.spacer_len = 0)
    (b : Nat) (flag : Bool) :
    bc.get_barcode_spacer b flag = bc.get_barcode b := by
  unfold Barcodes.get_barcode_spacer Barcodes.get_barcode
  cases hl : lookupIdx bc.index b with
  | none => rfl
  | some c =>
      cases flag with
      | true => rfl
      | false => simp [h]

theorem processPair_success
    (l1 l2 l3 l4 : List Seq) (s1 s2 s3 : Seq) (exact linkers : Bool) (cfg : Config)
    (hcfg : Config.from_sets l1 l2 l3 l4 s1 s2 s3 exact linkers = some cfg)
    (off ul : Nat) (stats : Statistics) (r1 r2 : Record)
    (e1 b1 n2 b2 n3 b3 n4 b4 : Nat)
    (h1 : cfg.match_subsequence r1.seq 0 0 (some off) = .ok (some (e1, b1)))
    (h2 : cfg.match_subsequence r1.seq 1 e1 none = .ok (some (n2, b2)))
    (h3 : cfg.match_subsequence r1.seq 2 (e1 + n2) none = .ok (some (n3, b3)))
    (h4 : cfg.match_subsequence r1.seq 3 (e1 + n2 + n3) none = .ok (some (n4, b4)))
    (humi : e1 + n2 + n3 + n4 + ul ≤ r1.seq.length)
    (hq : r1.qual.length = r1.seq.length) :
    ∃ x1 x2 x3 x4,
      cfg.bc1.get_barcode_spacer b1 cfg.linkers = some x1
      ∧ cfg.bc2.get_barcode_spacer b2 cfg.linkers = some x2
      ∧ cfg.bc3.get_barcode_spacer b3 cfg.linkers = some x3
      ∧ cfg.bc4.get_barcode_spacer b4 cfg.linkers = some x4
      ∧ cfg.bc4.get_barcode_spacer b4 cfg.linkers = cfg.bc4.get_barcode b4
      ∧ (x1 ++ x2 ++ x3 ++ x4).length + ul ≤ e1 + n2 + n3 + n4 + ul
      ∧ processPair cfg off ul stats r1 r2 =
          .ok ({ stats with
                 total_reads := stats.total_reads + 1
                 passing_reads := stats.passing_reads + 1 },
            some ({ id := r1.id
                    seq := (x1 ++ x2 ++ x3 ++ x4) ++
                      sliceList r1.seq (e1 + n2 + n3 + n4) (e1 + n2 + n3 + n4 + ul)
                    qual := sliceList r1.qual
                      (e1 + n2 + n3 + n4 + ul -
                        ((x1 ++ x2 ++ x3 ++ x4) ++
                          sliceList r1.seq (e1 + n2 + n3 + n4)
                            (e1 + n2 + n3 + n4 + ul)).length)
                      (e1 + n2 + n3 + n4 + ul) }, r2)) := by
  obtain ⟨hp1, hp2, hp3, hp4, _⟩ :=
    from_sets_inv l1 l2 l3 l4 s1 s2 s3 exact linkers cfg hcfg
  have h1' : cfg.bc1.match_subsequence r1.seq 0 (0 + cfg.bc1.len + off)
      = .ok (some (e1, b1)) := h1
  have h2' : cfg.bc2.match_subsequence r1.seq e1 (e1 + cfg.bc2.len)
      = .ok (some (n2, b2)) := h2
  have h3' : cfg.bc3.match_subsequence r1.seq (e1 + n2) ((e1 + n2) + cfg.bc3.len)
      = .ok (some (n3, b3)) := h3
  have h4' : cfg.bc4.match_subsequence r1.seq (e1 + n2 + n3) ((e1 + n2 + n3) + cfg.bc4.len)
      = .ok (some (n4, b4)) := h4
  obtain ⟨_, _, _, _, he1, he1b, w1, hw1⟩ := match_subsequence_ok_some _ _ _ _ _ _ h1'
  obtain ⟨_, _, _, _, hn2, hn2b, w2, hw2⟩ := match_subsequence_ok_some _ _ _ _ _ _ h2'
  obtain ⟨_, _, _, _, hn3, hn3b, w3, hw3⟩ := match_subsequence_ok_some _ _ _ _ _ _ h3'
  obtain ⟨_, _, _, _, hn4, hn4b, w4, hw4⟩ := match_subsequence_ok_some _ _ _ _ _ _ h4'
  obtain ⟨x1, hx1, hx1l⟩ :=
    get_barcode_spacer_of_valid l1 (some s1) exact cfg.bc1 hp1 b1 w1 hw1 cfg.linkers
  obtain ⟨x2, hx2, hx2l⟩ :=
    get_barcode_spacer_of_valid l2 (some s2) exact cfg.bc2 hp2 b2 w2 hw2 cfg.linkers
  obtain ⟨x3, hx3, hx3l⟩ :=
    get_barcode_spacer_of_valid l3 (some s3) exact cfg.bc3 hp3 b3 w3 hw3 cfg.linkers
  obtain ⟨x4, hx4, hx4l⟩ :=
    get_barcode_spacer_of_valid l4 none exact cfg.bc4 hp4 b4 w4 hw4 cfg.linkers
  have hzero : cfg.bc4.spacer_len = 0 := spacer_len_none l4 exact cfg.bc4 hp4
  have hn2e : n2 = cfg.bc2.len := by omega
  have hn3e : n3 = cfg.bc3.len := by omega
  have hn4e : n4 = cfg.bc4.len := by omega
  have hsum : (x1 ++ x2 ++ x3 ++ x4).length ≤ e1 + n2 + n3 + n4 := by
    simp only [List.length_append]
    omega
  set pos4 := e1 + n2 + n3 + n4 with hpos4
  have humiSl : sliceChecked r1.seq pos4 (pos4 + ul) =
      .ok (sliceList r1.seq pos4 (pos4 + ul)) := by
    unfold sliceChecked
    rw [if_neg (by omega)]
  have hbb : cfg.build_barcode b1 b2 b3 b4 = .ok (x1 ++ x2 ++ x3 ++ x4) := by
    unfold Config.build_barcode
    rw [hx1, hx2, hx3, hx4]
  have humil : (sliceList r1.seq pos4 (pos4 + ul)).length = ul := by
    rw [sliceList_length r1.seq pos4 (pos4 + ul) (by omega) (by omega)]
    omega
  have hclen : ((x1 ++ x2 ++ x3 ++ x4) ++ sliceList r1.seq pos4 (pos4 + ul)).length
      ≤ pos4 + ul := by
    rw [List.length_append, humil]
    omega
  have hql : qualSlice r1.qual
      ((x1 ++ x2 ++ x3 ++ x4) ++ sliceList r1.seq pos4 (pos4 + ul)).length (pos4 + ul) =
      .ok (sliceList r1.qual
        ((pos4 + ul) -
          ((x1 ++ x2 ++ x3 ++ x4) ++ sliceList r1.seq pos4 (pos4 + ul)).length)
        (pos4 + ul)) := by
    unfold qualSlice sliceChecked
    rw [if_neg (by omega), if_neg (by omega)]
  refine ⟨x1, x2, x3, x4, hx1, hx2, hx3, hx4,
    get_barcode_spacer_zero cfg.bc4 hzero b4 cfg.linkers, by omega, ?_⟩
  unfold processPair
  simp only [h1, h2, h3, h4, humiSl, hbb, hql]

/-- C9: for a configuration loaded from barcode sets, every index
produced by a successful stage match is bound in that set's index map,
so each `get_barcode` lookup during reconstruction returns a sequence
and the out-of-range (`expect`) branch of `build_barcode` is
unreachable. -/
theorem claim_C9_matched_index_valid
    (l1 l2 l3 l4 : List Seq) (s1 s2 s3 : Seq) (exact linkers : Bool) (cfg : Config)
    (hcfg : Config.from_sets l1 l2 l3 l4 s1 s2 s3 exact linkers = some cfg)
    (sq : Seq) (off : Nat) (e1 b1 n2 b2 n3 b3 n4 b4 : Nat)
    (h1 : cfg.match_subsequence sq 0 0 (some off) = .ok (some (e1, b1)))
    (h2 : cfg.match_subsequence sq 1 e1 none = .ok (some (n2, b2)))
    (h3 : cfg.match_subsequence sq 2 (e1 + n2) none = .ok (some (n3, b3)))
    (h4 : cfg.match_subsequence sq 3 (e1 + n2 + n3) none = .ok (some (n4, b4))) :
    (cfg.bc1.get_barcode b1).isSome ∧ (cfg.bc2.get_barcode b2).isSome
    ∧ (cfg.bc3.get_barcode b3).isSome ∧ (cfg.bc4.get_barcode b4).isSome
    ∧ ∃ v, cfg.build_barcode b1 b2 b3 b4 = .ok v := by
  obtain ⟨hp1, hp2, hp3, hp4, _⟩ :=
    from_sets_inv l1 l2 l3 l4 s1 s2 s3 exact linkers cfg hcfg
  have h1' : cfg.bc1.match_subsequence sq 0 (0 + cfg.bc1.len + off)
      = .ok (some (e1, b1)) := h1
  have h2' : cfg.bc2.match_subsequence sq e1 (e1 + cfg.bc2.len)
      = .ok (some (n2, b2)) := h2
  have h3' : cfg.bc3.match_subsequence sq (e1 + n2) ((e1 + n2) + cfg.bc3.len)
      = .ok (some (n3, b3)) := h3
  have h4' : cfg.bc4.match_subsequence sq (e1 + n2 + n3) ((e1 + n2 + n3) + cfg.bc4.len)
      = .ok (some (n4, b4)) := h4
  obtain ⟨_, _, _, _, _, _, w1, hw1⟩ := match_subsequence_ok_some _ _ _ _ _ _ h1'
  obtain ⟨_, _, _, _, _, _, w2, hw2⟩ := match_subsequence_ok_some _ _ _ _ _ _ h2'
  obtain ⟨_, _, _, _, _, _, w3, hw3⟩ := match_subsequence_ok_some _ _ _ _ _ _ h3'
  obtain ⟨_, _, _, _, _, _, w4, hw4⟩ := match_subsequence_ok_some _ _ _ _ _ _ h4'
  obtain ⟨c1, hc1, _⟩ := map_value_valid l1 (some s1) exact cfg.bc1 hp1 w1 b1 hw1
  obtain ⟨c2, hc2, _⟩ := map_value_valid l2 (some s2) exact cfg.bc2 hp2 w2 b2 hw2
  obtain ⟨c3, hc3, _⟩ := map_value_valid l3 (some s3) exact cfg.bc3 hp3 w3 b3 hw3
  obtain ⟨c4, hc4, _⟩ := map_value_valid l4 none exact cfg.bc4 hp4 w4 b4 hw4
  obtain ⟨x1, hx1, _⟩ :=
    get_barcode_spacer_of_valid l1 (some s1) exact cfg.bc1 hp1 b1 w1 hw1 cfg.linkers
  obtain ⟨x2, hx2, _⟩ :=
    get_barcode_spacer_of_valid l2 (some s2) exact cfg.bc2 hp2 b2 w2 hw2 cfg.linkers
  obtain ⟨x3, hx3, _⟩ :=
    get_barcode_spacer_of_valid l3 (some s3) exact cfg.bc3 hp3 b3 w3 hw3 cfg.linkers
  obtain ⟨x4, hx4, _⟩ :=
    get_barcode_spacer_of_valid l4 none exact cfg.bc4 hp4 b4 w4 hw4 cfg.linkers
  refine ⟨?_, ?_, ?_, ?_, x1 ++ x2 ++ x3 ++ x4, ?_⟩
  · rw [Barcodes.get_barcode, hc1]
    rfl
  · rw [Barcodes.get_barcode, hc2]
    rfl
  · rw [Barcodes.get_barcode, hc3]
    rfl
  · rw [Barcodes.get_barcode, hc4]
    rfl
  · unfold Config.build_barcode
    rw [hx1, hx2, hx3, hx4]

/-- Witness for C9: the four matched indices of the synthetic passing
read are valid and `build_barcode` succeeds on them. -/
theorem claim_C9_matched_index_valid_witness :
    (cfgW.bc1.get_barcode 0).isSome ∧ (cfgW.bc2.get_barcode 0).isSome
    ∧ (cfgW.bc3.get_barcode 0).isSome ∧ (cfgW.bc4.get_barcode 0).isSome
    ∧ ∃ v, cfgW.build_barcode 0 0 0 0 = .ok v :=
  claim_C9_matched_index_valid [[65, 65]] [[71, 71]] [[67, 67]] [[84, 84]]
    [67] [84] [65] true true cfgW rfl r1W.seq 0 3 0 3 0 3 0 2 0 rfl rfl rfl rfl

/-- C5: a read pair accepted by all four stages (read-1 long enough for
the UMI) produces an output sequence equal to the concatenation of the
four canonical sequences — spacer kept for sets 1-3 iff the run-wide
flag, set 4's lookup being spacer-free either way — followed by the
`umi_len` bytes of read-1 starting at stage 4's end position. -/
theorem claim_C5_construct_sequence
    (l1 l2 l3 l4 : List Seq) (s1 s2 s3 : Seq) (exact linkers : Bool) (cfg : Config)
    (hcfg : Config.from_sets l1 l2 l3 l4 s1 s2 s3 exact linkers = some cfg)
    (off ul : Nat) (stats : Statistics) (r1 r2 : Record)
    (e1 b1 n2 b2 n3 b3 n4 b4 : Nat)
    (h1 : cfg.match_subsequence r1.seq 0 0 (some off) = .ok (some (e1, b1)))
    (h2 : cfg.match_subsequence r1.seq 1 e1 none = .ok (some (n2, b2)))
    (h3 : cfg.match_subsequence r1.seq 2 (e1 + n2) none = .ok (some (n3, b3)))
    (h4 : cfg.match_subsequence r1.seq 3 (e1 + n2 + n3) none = .ok (some (n4, b4)))
    (humi : e1 + n2 + n3 + n4 + ul ≤ r1.seq.length)
    (hq : r1.qual.length = r1.seq.length) :
    ∃ x1 x2 x3 x4 st out,
      cfg.bc1.get_barcode_spacer b1 cfg.linkers = some x1
      ∧ cfg.bc2.get_barcode_spacer b2 cfg.linkers = some x2
      ∧ cfg.bc3.get_barcode_spacer b3 cfg.linkers = some x3
      ∧ cfg.bc4.get_barcode_spacer b4 cfg.linkers = some x4
      ∧ cfg.bc4.get_barcode_spacer b4 cfg.linkers = cfg.bc4.get_barcode b4
      ∧ processPair cfg off ul stats r1 r2 = .ok (st, some (out, r2))
      ∧ out.seq = (x1 ++ x2 ++ x3 ++ x4) ++
          sliceList r1.seq (e1 + n2 + n3 + n4) (e1 + n2 + n3 + n4 + ul)
      ∧ out.id = r1.id := by
  obtain ⟨x1, x2, x3, x4, hx1, hx2, hx3, hx4, hx4z, _, hrun⟩ :=
    processPair_success l1 l2 l3 l4 s1 s2 s3 exact linkers cfg hcfg
      off ul stats r1 r2 e1 b1 n2 b2 n3 b3 n4 b4 h1 h2 h3 h4 humi hq
  exact ⟨x1, x2, x3, x4, _, _, hx1, hx2, hx3, hx4, hx4z, hrun, rfl, rfl⟩

/-- Witness for C5: the synthetic passing read reconstructs to the
four canonical segments (spacers kept) followed by its UMI. -/
theorem claim_C5_construct_sequence_witness :
    ∃ x1 x2 x3 x4 st out,
      cfgW.bc1.get_barcode_spacer 0 cfgW.linkers = some x1
      ∧ cfgW.bc2.get_barcode_spacer 0 cfgW.linkers = some x2
      ∧ cfgW.bc3.get_barcode_spacer 0 cfgW.linkers = some x3
      ∧ cfgW.bc4.get_barcode_spacer 0 cfgW.linkers = some x4
      ∧ cfgW.bc4.get_barcode_spacer 0 cfgW.linkers = cfgW.bc4.get_barcode 0
      ∧ processPair cfgW 0 2 Statistics.new r1W r2W = .ok (st, some (out, r2W))
      ∧ out.seq = (x1 ++ x2 ++ x3 ++ x4) ++
          sliceList r1W.seq (3 + 3 + 3 + 2) (3 + 3 + 3 + 2 + 2)
      ∧ out.id = r1W.id :=
  claim_C5_construct_sequence [[65, 65]] [[71, 71]] [[67, 67]] [[84, 84]]
    [67] [84] [65] true true cfgW rfl 0 2 Statistics.new r1W r2W
    3 0 3 0 3 0 2 0 rfl rfl rfl rfl (by decide) rfl

/-- C8: a read pair accepted by all four stages emits read-2 unchanged
and a read-1 quality string that is the contiguous slice of the
original quality ending at stage4_end + umi_len whose length equals the
reconstructed sequence's length. -/
theorem claim_C8_output_records
    (l1 l2 l3 l4 : List Seq) (s1 s2 s3 : Seq) (exact linkers : Bool) (cfg : Config)
    (hcfg : Config.from_sets l1 l2 l3 l4 s1 s2 s3 exact linkers = some cfg)
    (off ul : Nat) (stats : Statistics) (r1 r2 : Record)
    (e1 b1 n2 b2 n3 b3 n4 b4 : Nat)
    (h1 : cfg.match_subsequence r1.seq 0 0 (some off) = .ok (some (e1, b1)))
    (h2 : cfg.match_subsequence r1.seq 1 e1 none = .ok (some (n2, b2)))
    (h3 : cfg.match_subsequence r1.seq 2 (e1 + n2) none = .ok (some (n3, b3)))
    (h4 : cfg.match_subsequence r1.seq 3 (e1 + n2 + n3) none = .ok (some (n4, b4)))
    (humi : e1 + n2 + n3 + n4 + ul ≤ r1.seq.length)
    (hq : r1.qual.length = r1.seq.length) :
    ∃ st out,
      processPair cfg off ul stats r1 r2 = .ok (st, some (out, r2))
      ∧ out.qual = sliceList r1.qual
          (e1 + n2 + n3 + n4 + ul - out.seq.length) (e1 + n2 + n3 + n4 + ul)
      ∧ out.qual.length = out.seq.length
      ∧ out.seq.length ≤ e1 + n2 + n3 + n4 + ul := by
  obtain ⟨x1, x2, x3, x4, _, _, _, _, _, hlen, hrun⟩ :=
    processPair_success l1 l2 l3 l4 s1 s2 s3 exact linkers cfg hcfg
      off ul stats r1 r2 e1 b1 n2 b2 n3 b3 n4 b4 h1 h2 h3 h4 humi hq
  set pos4 := e1 + n2 + n3 + n4 with hpos4
  have humil : (sliceList r1.seq pos4 (pos4 + ul)).length = ul := by
    rw [sliceList_length r1.seq pos4 (pos4 + ul) (by omega) (by omega)]
    omega
  have hslen : ((x1 ++ x2 ++ x3 ++ x4) ++ sliceList r1.seq pos4 (pos4 + ul)).length
      ≤ pos4 + ul := by
    rw [List.length_append, humil]
    omega
  refine ⟨_, _, hrun, rfl, ?_, ?_⟩
  · simp only
    rw [sliceList_length r1.qual _ (pos4 + ul) (by omega) (by omega)]
    omega
  · simpa using hslen

/-- Witness for C8: the synthetic passing read's emitted pair carries
read-2 unchanged and a quality slice as long as the construct. -/
theorem claim_C8_output_records_witness :
    ∃ st out,
      processPair cfgW 0 2 Statistics.new r1W r2W = .ok (st, some (out, r2W))
      ∧ out.qual = sliceList r1W.qual
          (3 + 3 + 3 + 2 + 2 - out.seq.length) (3 + 3 + 3 + 2 + 2)
      ∧ out.qual.length = out.seq.length
      ∧ out.seq.length ≤ 3 + 3 + 3 + 2 + 2 :=
  claim_C8_output_records [[65, 65]] [[71, 71]] [[67, 67]] [[84, 84]]
    [67] [84] [65] true true cfgW rfl 0 2 Statistics.new r1W r2W
    3 0 3 0 3 0 2 0 rfl rfl rfl rfl (by decide) rfl

theorem processPair_step (cfg : Config) (off ul : Nat) (stats : Statistics)
    (r1 r2 : Record) (stats' : Statistics) (o : Option (Record × Record))
    (h : processPair cfg off ul stats r1 r2 = .ok (stats', o)) :
    stats'.total_reads = stats.total_reads + 1
    ∧ stats'.whitelist = stats.whitelist
    ∧ (o = none → stats'.passing_reads = stats.passing_reads)
    ∧ ((∃ out, o = some out) → stats'.passing_reads = stats.passing_reads + 1)
    ∧ ((stats'.passing_reads = stats.passing_reads + 1
          ∧ stats'.num_filtered_1 = stats.num_filtered_1
          ∧ stats'.num_filtered_2 = stats.num_filtered_2
          ∧ stats'.num_filtered_3 = stats.num_filtered_3
          ∧ stats'.num_filtered_4 = stats.num_filtered_4)
        ∨ (stats'.passing_reads = stats.passing_reads
          ∧ stats'.num_filtered_1 = stats.num_filtered_1 + 1
          ∧ stats'.num_filtered_2 = stats.num_filtered_2
          ∧ stats'.num_filtered_3 = stats.num_filtered_3
          ∧ stats'.num_filtered_4 = stats.num_filtered_4)
        ∨ (stats'.passing_reads = stats.passing_reads
          ∧ stats'.num_filtered_1 = stats.num_filtered_1
          ∧ stats'.num_filtered_2 = stats.num_filtered_2 + 1
          ∧ stats'.num_filtered_3 = stats.num_filtered_3
          ∧ stats'.num_filtered_4 = stats.num_filtered_4)
        ∨ (stats'.passing_reads = stats.passing_reads
          ∧ stats'.num_filtered_1 = stats.num_filtered_1
          ∧ stats'.num_filtered_2 = stats.num_filtered_2
          ∧ stats'.num_filtered_3 = stats.num_filtered_3 + 1
          ∧ stats'.num_filtered_4 = stats.num_filtered_4)
        ∨ (stats'.passing_reads = stats.passing_reads
          ∧ stats'.num_filtered_1 = stats.num_filtered_1
          ∧ stats'.num_filtered_2 = stats.num_filtered_2
          ∧ stats'.num_filtered_3 = stats.num_filtered_3
          ∧ stats'.num_filtered_4 = stats.num_filtered_4 + 1)) := by
  unfold processPair at h
  rcases hs1 : cfg.match_subsequence r1.seq 0 0 (some off) with u | _ | ⟨e1, b1⟩ <;>
    rw [hs1] at h
  · simp at h
  · dsimp only at h
    simp only [Except.ok.injEq, Prod.mk.injEq] at h
    obtain ⟨hst, ho⟩ := h
    subst hst
    subst ho
    simp
  dsimp only at h
  rcases hs2 : cfg.match_subsequence r1.seq 1 e1 none with u | _ | ⟨n2, b2⟩ <;>
    rw [hs2] at h
  · simp at h
  · dsimp only at h
    simp only [Except.ok.injEq, Prod.mk.injEq] at h
    obtain ⟨hst, ho⟩ := h
    subst hst
    subst ho
    simp
  dsimp only at h
  rcases hs3 : cfg.match_subsequence r1.seq 2 (e1 + n2) none with u | _ | ⟨n3, b3⟩ <;>
    rw [hs3] at h
  · simp at h
  · dsimp only at h
    simp only [Except.ok.injEq, Prod.mk.injEq] at h
    obtain ⟨hst, ho⟩ := h
    subst hst
    subst ho
    simp
  dsimp only at h
  rcases hs4 : cfg.match_subsequence r1.seq 3 (e1 + n2 + n3) none with u | _ | ⟨n4, b4⟩ <;>
    rw [hs4] at h
  · simp at h
  · dsimp only at h
    simp only [Except.ok.injEq, Prod.mk.injEq] at h
    obtain ⟨hst, ho⟩ := h
    subst hst
    subst ho
    simp
  dsimp only at h
  rcases hs5 : sliceChecked r1.seq (e1 + n2 + n3 + n4) (e1 + n2 + n3 + n4 + ul)
    with u | umi <;> rw [hs5] at h
  · simp at h
  dsimp only at h
  rcases hs6 : cfg.build_barcode b1 b2 b3 b4 with u | bcseq <;> rw [hs6] at h
  · simp at h
  dsimp only at h
  rcases hs7 : qualSlice r1.qual (bcseq ++ umi).length (e1 + n2 + n3 + n4 + ul)
    with u | cq <;> rw [hs7] at h
  · simp at h
  dsimp only at h
  simp only [Except.ok.injEq, Prod.mk.injEq] at h
  obtain ⟨hst, ho⟩ := h
  subst hst
  subst ho
  simp

theorem mem_insertWhitelist (wl : List Seq) (x s : Seq) :
    s ∈ insertWhitelist wl x ↔ s = x ∨ s ∈ wl := by
  unfold insertWhitelist
  by_cases hx : x ∈ wl
  · rw [if_pos hx]
    constructor
    · intro h
      exact Or.inr h
    · rintro (rfl | h)
      · exact hx
      · exact h
  · rw [if_neg hx]
    simp

theorem nodup_insertWhitelist (wl : List Seq) (x : Seq) (h : wl.Nodup) :
    (insertWhitelist wl x).Nodup := by
  unfold insertWhitelist
  by_cases hx : x ∈ wl
  · rw [if_pos hx]
    exact h
  · rw [if_neg hx]
    exact List.nodup_cons.mpr ⟨hx, h⟩

theorem recordLoop_ok (cfg : Config) (off ul : Nat) :
    ∀ (pairs : List (Record × Record)) (stats : Statistics)
      (outs : List (Record × Record)) (stats' : Statistics)
      (res : List (Record × Record)),
    recordLoop cfg off ul pairs stats outs = .ok (stats', res) →
    ∃ new, res = outs.reverse ++ new
      ∧ stats'.total_reads = stats.total_reads + pairs.length
      ∧ stats'.passing_reads = stats.passing_reads + new.length
      ∧ stats'.passing_reads + stats'.num_filtered_1 + stats'.num_filtered_2
          + stats'.num_filtered_3 + stats'.num_filtered_4
        = stats.passing_reads + stats.num_filtered_1 + stats.num_filtered_2
          + stats.num_filtered_3 + stats.num_filtered_4 + pairs.length
      ∧ (∀ s, s ∈ stats'.whitelist ↔ s ∈ stats.whitelist ∨
          s ∈ new.map (fun out => out.1.seq))
      ∧ (stats.whitelist.Nodup → stats'.whitelist.Nodup) := by
  intro pairs
  induction pairs with
  | nil =>
      intro stats outs stats' res h
      unfold recordLoop at h
      simp only [Except.ok.injEq, Prod.mk.injEq] at h
      obtain ⟨hst, hres⟩ := h
      subst hst
      subst hres
      exact ⟨[], by simp, by simp, by simp, by simp, by simp, fun hn => hn⟩
  | cons pr rest ih =>
      intro stats outs stats' res h
      obtain ⟨a, b⟩ := pr
      unfold recordLoop at h
      rcases hpp : processPair cfg off ul stats a b with u | ⟨st1, o⟩ <;> rw [hpp] at h
      · simp at h
      · obtain ⟨htot, hwl, hponone, hposome, hdisj⟩ :=
          processPair_step cfg off ul stats a b st1 o hpp
        have hsum1 : st1.passing_reads + st1.num_filtered_1 + st1.num_filtered_2
            + st1.num_filtered_3 + st1.num_filtered_4
            = stats.passing_reads + stats.num_filtered_1 + stats.num_filtered_2
            + stats.num_filtered_3 + stats.num_filtered_4 + 1 := by
          rcases hdisj with hd | hd | hd | hd | hd <;> omega
        cases o with
        | none =>
            dsimp only at h
            obtain ⟨new, hres, h1, h2, h3, h4, h5⟩ := ih st1 outs stats' res h
            refine ⟨new, hres, ?_, ?_, ?_, ?_, ?_⟩
            · simp only [List.length_cons]
              omega
            · have := hponone rfl
              omega
            · simp only [List.length_cons]
              omega
            · intro s
              rw [h4 s, hwl]
            · intro hn
              exact h5 (hwl ▸ hn)
        | some out =>
            dsimp only at h
            obtain ⟨new, hres, h1, h2, h3, h4, h5⟩ := ih _ _ stats' res h
            dsimp only at h1 h2 h3 h4 h5
            have hps := hposome ⟨out, rfl⟩
            refine ⟨out :: new, ?_, ?_, ?_, ?_, ?_, ?_⟩
            · rw [hres]
              simp
            · simp only [List.length_cons]
              omega
            · simp only [List.length_cons]
              omega
            · simp only [List.length_cons]
              omega
            · intro s
              rw [h4 s]
              simp only [mem_insertWhitelist, hwl, List.map_cons, List.mem_cons]
              constructor
              · rintro ((rfl | hs) | hs)
                · exact Or.inr (Or.inl rfl)
                · exact Or.inl hs
                · exact Or.inr (Or.inr hs)
              · rintro (hs | rfl | hs)
                · exact Or.inl (Or.inr hs)
                · exact Or.inl (Or.inl rfl)
                · exact Or.inr hs
            · intro hn
              exact h5 (nodup_insertWhitelist _ _ (by rw [hwl]; exact hn))


/-- C6: after every run, total reads equals passing reads plus the four
per-stage filtered counters; per pair, a processed read increments the
total exactly once and then exactly one of the five buckets. -/
theorem claim_C6_statistics_partition (cfg : Config) (off ul : Nat)
    (r1s r2s : List Record) (stats : Statistics) (outs : List (Record × Record))
    (h : parse_records cfg off ul r1s r2s = .ok (stats, outs)) :
    (stats.total_reads = stats.passing_reads + stats.num_filtered_1
      + stats.num_filtered_2 + stats.num_filtered_3 + stats.num_filtered_4)
    ∧ (∀ st r1 r2 st' o, processPair cfg off ul st r1 r2 = .ok (st', o) →
        st'.total_reads = st.total_reads + 1
        ∧ ((st'.passing_reads = st.passing_reads + 1
              ∧ st'.num_filtered_1 = st.num_filtered_1
              ∧ st'.num_filtered_2 = st.num_filtered_2
              ∧ st'.num_filtered_3 = st.num_filtered_3
              ∧ st'.num_filtered_4 = st.num_filtered_4)
            ∨ (st'.passing_reads = st.passing_reads
              ∧ st'.num_filtered_1 = st.num_filtered_1 + 1
              ∧ st'.num_filtered_2 = st.num_filtered_2
              ∧ st'.num_filtered_3 = st.num_filtered_3
              ∧ st'.num_filtered_4 = st.num_filtered_4)
            ∨ (st'.passing_reads = st.passing_reads
              ∧ st'.num_filtered_1 = st.num_filtered_1
              ∧ st'.num_filtered_2 = st.num_filtered_2 + 1
              ∧ st'.num_filtered_3 = st.num_filtered_3
              ∧ st'.num_filtered_4 = st.num_filtered_4)
            ∨ (st'.passing_reads = st.passing_reads
              ∧ st'.num_filtered_1 = st.num_filtered_1
              ∧ st'.num_filtered_2 = st.num_filtered_2
              ∧ st'.num_filtered_3 = st.num_filtered_3 + 1
              ∧ st'.num_filtered_4 = st.num_filtered_4)
            ∨ (st'.passing_reads = st.passing_reads
              ∧ st'.num_filtered_1 = st.num_filtered_1
              ∧ st'.num_filtered_2 = st.num_filtered_2
              ∧ st'.num_filtered_3 = st.num_filtered_3
              ∧ st'.num_filtered_4 = st.num_filtered_4 + 1))) := by
  constructor
  · unfold parse_records at h
    obtain ⟨new, _, h1, _, h3, _, _⟩ := recordLoop_ok cfg off ul _ _ _ _ _ h
    simp only [Statistics.new] at h1 h3
    omega
  · intro st r1 r2 st' o hpp
    obtain ⟨htot, _, _, _, hdisj⟩ := processPair_step cfg off ul st r1 r2 st' o hpp
    exact ⟨htot, hdisj⟩

/-- The statistics and outputs of a two-read run over `cfgW` (one
passing read, one read filtered at stage 1). -/
def runW : Statistics × List (Record × Record) :=
  (parse_records cfgW 0 2 [r1W, r1Wbad] [r2W, r2W]).toOption.getD (Statistics.new, [])

/-- Witness for C6 on the concrete two-read run. -/
theorem claim_C6_statistics_partition_witness :
    runW.1.total_reads = runW.1.passing_reads + runW.1.num_filtered_1
      + runW.1.num_filtered_2 + runW.1.num_filtered_3 + runW.1.num_filtered_4 :=
  (claim_C6_statistics_partition cfgW 0 2 [r1W, r1Wbad] [r2W, r2W]
    runW.1 runW.2 rfl).1

/-- C7: after the stream is exhausted the whitelist holds exactly the
distinct reconstructed sequences of the passing reads (set semantics),
so its size is at most the passing count. -/
theorem claim_C7_whitelist (cfg : Config) (off ul : Nat)
    (r1s r2s : List Record) (stats : Statistics) (outs : List (Record × Record))
    (h : parse_records cfg off ul r1s r2s = .ok (stats, outs)) :
    (∀ s, s ∈ stats.whitelist ↔ s ∈ outs.map (fun out => out.1.seq))
    ∧ stats.whitelist.Nodup
    ∧ stats.whitelist.length ≤ stats.passing_reads := by
  unfold parse_records at h
  obtain ⟨new, hres, _, h2, _, h4, h5⟩ := recordLoop_ok cfg off ul _ _ _ _ _ h
  have hres' : outs = new := by simpa using hres
  subst hres'
  have hwl : ∀ s, s ∈ stats.whitelist ↔ s ∈ outs.map (fun out => out.1.seq) := by
    intro s
    rw [h4 s]
    simp [Statistics.new]
  have hnd : stats.whitelist.Nodup := h5 (by simp [Statistics.new])
  refine ⟨hwl, hnd, ?_⟩
  have hlen : stats.whitelist.length ≤ outs.length := by
    have hsub : stats.whitelist.toFinset ⊆ (outs.map (fun out => out.1.seq)).toFinset := by
      intro x hx
      rw [List.mem_toFinset] at hx ⊢
      exact (hwl x).mp hx
    calc stats.whitelist.length = stats.whitelist.toFinset.card :=
          (List.toFinset_card_of_nodup hnd).symm
      _ ≤ (outs.map (fun out => out.1.seq)).toFinset.card := Finset.card_le_card hsub
      _ ≤ (outs.map (fun out => out.1.seq)).length := List.toFinset_card_le _
      _ = outs.length := List.length_map _ _
  simp only [Statistics.new] at h2
  omega

/-- Witness for C7 on the concrete two-read run. -/
theorem claim_C7_whitelist_witness :
    runW.1.whitelist.Nodup ∧ runW.1.whitelist.length ≤ runW.1.passing_reads := by
  have h := claim_C7_whitelist cfgW 0 2 [r1W, r1Wbad] [r2W, r2W] runW.1 runW.2 rfl
  exact ⟨h.2.1, h.2.2⟩

end Pipspeak
